import Mathlib

/-!
Verification of the `email` package (agext/email): a shallow embedding of the
MIME message composer and its codecs, with theorems checking the package's
specification claims.  Go byte slices are modelled as `List Nat` (each element
a byte value `< 256`); Go strings that only carry ASCII data are transcribed
with `strB`.  Loops whose Go form advances an index are modelled as
structural recursion on a fuel argument initialised with the input length
(each iteration consumes at least one input byte, so that fuel is never
exhausted); this keeps every definition kernel-computable.
-/

namespace email

/-- Bytes of an ASCII string literal; used to transcribe Go string constants. -/
def strB (s : String) : List Nat := s.data.map Char.toNat

/-- `hextable = "0123456789ABCDEF"` from encoding.go. -/
def hextable : List Nat := strB "0123456789ABCDEF"

/-- `base64table` from encoding.go (the standard base64 alphabet). -/
def base64table : List Nat :=
  strB "ABCDEFGHIJKLMNOPQRSTUVWXYZabcdefghijklmnopqrstuvwxyz0123456789+/"

/-- Indexing into `hextable`. -/
def hexAt (n : Nat) : Nat := hextable.getD n 0

/-- The three bytes `'=', hextable[c>>4], hextable[c&0x0f]`: the `=XX` escape
emitted by both `QuotedPrintableEncode` and `QEncode` (encoding.go). -/
def encHex (c : Nat) : List Nat := [61, hexAt (c >>> 4), hexAt (c &&& 15)]

/-- `c&0xC0 == 0x80`: a UTF-8 continuation byte (encoding.go). -/
def isContB (c : Nat) : Bool := c &&& 192 == 128

/-- `c&0xC0 == 0xC0`: the start of a UTF-8 rune (encoding.go). -/
def isLeadB (c : Nat) : Bool := c &&& 192 == 192

/-- The source bytes consumed by one iteration of the encoder loops: a single
byte, except that a UTF-8 lead byte also consumes the following run of
continuation bytes (the inner `for` loop in encoding.go lines 39-47/104-112). -/
def qpUnitSrc (c : Nat) (rest : List Nat) : List Nat :=
  if c &&& 192 = 192 then c :: rest.takeWhile isContB else [c]

/-- The input left over after one iteration of the encoder loops. -/
def qpRest (c : Nat) (rest : List Nat) : List Nat :=
  if c &&& 192 = 192 then rest.dropWhile isContB else rest

/-- The bytes `enc` built by one iteration of the `QuotedPrintableEncode`
loop (encoding.go lines 30-50): tab/space and printable ASCII other than `=`
pass through; a UTF-8 rune is `=XX`-escaped byte by byte as one unit;
anything else is `=XX`-escaped. -/
def qpEnc (c : Nat) (rest : List Nat) : List Nat :=
  if c = 9 ∨ c = 32 then [c]
  else if 33 ≤ c ∧ c ≤ 126 ∧ c ≠ 61 then [c]
  else ((qpUnitSrc c rest).map encHex).flatten

theorem length_qpRest_le (c : Nat) (rest : List Nat) : (qpRest c rest).length ≤ rest.length := by
  unfold qpRest
  split
  · exact (List.dropWhile_sublist _).length_le
  · exact Nat.le_refl _

/-- The main loop of `QuotedPrintableEncode` (encoding.go lines 28-57): `pos`
is the current line length; when a unit would push it past 75 a soft break
`=CRLF` is emitted first and the line restarts with that unit. -/
def qpLoopF : Nat → List Nat → Nat → List Nat
  | _, [], _ => []
  | 0, _ :: _, _ => []
  | fuel + 1, c :: rest, pos =>
    let enc := qpEnc c rest
    if pos + enc.length > 75 then
      [61, 13, 10] ++ enc ++ qpLoopF fuel (qpRest c rest) enc.length
    else
      enc ++ qpLoopF fuel (qpRest c rest) (pos + enc.length)

/-- The `QuotedPrintableEncode` loop at its sufficient fuel value. -/
def qpLoop (src : List Nat) (pos : Nat) : List Nat := qpLoopF src.length src pos

/-- `QuotedPrintableEncode` (encoding.go lines 12-62).  The flag `eis`
("encoding ends in space") is true at loop exit exactly when the final input
byte is a tab or space (whitespace bytes always form their own unit and no
other unit ends in byte 9 or 32), in which case a protective trailing `=` is
appended. -/
def QuotedPrintableEncode (src : List Nat) : List Nat :=
  match src with
  | [] => []
  | _ :: _ =>
    qpLoop src 0 ++ (if src.getLastD 0 = 9 ∨ src.getLastD 0 = 32 then [61] else [])

/-- Uppercase hex digit as produced by `hextable` indexing. -/
def isHexUpper (c : Nat) : Bool := (48 ≤ c && c ≤ 57) || (65 ≤ c && c ≤ 70)

/-- Value of an uppercase hex digit byte. -/
def unhexDigit (c : Nat) : Nat := if c ≤ 57 then c - 48 else c - 55

/-- Decoder for the quoted-printable output, following the claim's decoding
procedure: remove the soft line-break markers `=CRLF`, un-escape every `=XX`
hex escape, and pass everything else through.  The encoder's protective
trailing `=` (emitted when the data ends in whitespace) is the start of a
soft-break marker cut off by the end of the data: in a composed message it is
always followed by CRLF, so the decoder treats a final lone `=` as a
soft-break marker as well. -/
def qpDecode : List Nat → List Nat
  | [] => []
  | c :: rest =>
    if c = 61 then
      match rest with
      | [] => []
      | [r1] => 61 :: qpDecode [r1]
      | r1 :: r2 :: rest2 =>
        if r1 = 13 ∧ r2 = 10 then qpDecode rest2
        else if isHexUpper r1 ∧ isHexUpper r2 then
          (16 * unhexDigit r1 + unhexDigit r2) :: qpDecode rest2
        else 61 :: qpDecode (r1 :: r2 :: rest2)
    else c :: qpDecode rest

example : QuotedPrintableEncode (strB "test ") = strB "test =" := by decide
example : QuotedPrintableEncode (strB "test\n me") = strB "test=0A me" := by decide
example : qpDecode (QuotedPrintableEncode (strB "test\n me")) = strB "test\n me" := by decide
example :
    QuotedPrintableEncode (strB "test\\/me=again" ++ [226, 128, 166]) =
      strB "test\\/me=3Dagain=E2=80=A6" := by decide
set_option maxRecDepth 8000 in
example :
    QuotedPrintableEncode
      (strB "Lorem ipsum dolor sit amet, no sit enim fugit, solum omittam evertitur qui cu. Usu ad sonet facilisis, cu partem platonem conceptam has. Tincidunt scribentur nec ex, eu hinc quodsi consequat quo, ex est labore fuisset. Vel semper salutatus ne.") =
      strB "Lorem ipsum dolor sit amet, no sit enim fugit, solum omittam evertitur qui =" ++
        [13, 10] ++
      strB "cu. Usu ad sonet facilisis, cu partem platonem conceptam has. Tincidunt scr=" ++
        [13, 10] ++
      strB "ibentur nec ex, eu hinc quodsi consequat quo, ex est labore fuisset. Vel se=" ++
        [13, 10] ++
      strB "mper salutatus ne." := by decide

theorem not_lead_of_le (c : Nat) (h : c ≤ 191) : ¬c &&& 192 = 192 := by
  intro hand
  have hle : c &&& 192 ≤ c := Nat.and_le_left
  omega

theorem qpUnitSrc_append_qpRest (c : Nat) (rest : List Nat) :
    qpUnitSrc c rest ++ qpRest c rest = c :: rest := by
  unfold qpUnitSrc qpRest
  split
  · simp [List.takeWhile_append_dropWhile]
  · simp

theorem mem_qpUnitSrc {b c : Nat} {rest : List Nat} (hm : b ∈ qpUnitSrc c rest) :
    b = c ∨ b ∈ rest := by
  unfold qpUnitSrc at hm
  split at hm
  · rcases List.mem_cons.mp hm with h | h
    · exact Or.inl h
    · exact Or.inr ((List.takeWhile_sublist _).subset h)
  · exact Or.inl (List.mem_singleton.mp hm)

theorem mem_qpRest {b c : Nat} {rest : List Nat} (hm : b ∈ qpRest c rest) : b ∈ rest := by
  unfold qpRest at hm
  split at hm
  · exact (List.dropWhile_sublist _).subset hm
  · exact hm

set_option maxRecDepth 4000 in
theorem qpDecode_encHex (b : Nat) (hb : b < 256) (t : List Nat) :
    qpDecode (encHex b ++ t) = b :: qpDecode t := by
  obtain ⟨h1, ⟨h2a, h2b⟩, h3⟩ :
      ¬(hexAt (b >>> 4) = 13 ∧ hexAt (b &&& 15) = 10) ∧
      (isHexUpper (hexAt (b >>> 4)) ∧ isHexUpper (hexAt (b &&& 15))) ∧
      16 * unhexDigit (hexAt (b >>> 4)) + unhexDigit (hexAt (b &&& 15)) = b := by
    revert hb
    revert b
    decide
  simp only [encHex, List.cons_append, List.nil_append]
  rw [qpDecode.eq_def]
  simp [h1, h2a, h2b, h3]

theorem qpDecode_break (t : List Nat) : qpDecode ([61, 13, 10] ++ t) = qpDecode t := rfl

theorem qpDecode_lit (c : Nat) (t : List Nat) (h : c ≠ 61) :
    qpDecode (c :: t) = c :: qpDecode t := by
  rw [qpDecode.eq_def]
  simp [h]

theorem qpDecode_hexJoin (l t : List Nat) (h : ∀ b ∈ l, b < 256) :
    qpDecode ((l.map encHex).flatten ++ t) = l ++ qpDecode t := by
  induction l with
  | nil => simp
  | cons b l ih =>
    simp only [List.map_cons, List.flatten_cons, List.append_assoc, List.cons_append]
    rw [qpDecode_encHex b (h b (List.mem_cons_self b l)) _,
      ih fun x hx => h x (List.mem_cons_of_mem b hx)]

theorem qpDecode_qpEnc (c : Nat) (rest t : List Nat) (hc : c < 256)
    (hr : ∀ b ∈ rest, b < 256) :
    qpDecode (qpEnc c rest ++ t) = qpUnitSrc c rest ++ qpDecode t := by
  unfold qpEnc
  split
  case isTrue h =>
    have hn : ¬c &&& 192 = 192 := not_lead_of_le c (by omega)
    have hne : c ≠ 61 := by omega
    rw [qpUnitSrc, if_neg hn]
    simpa using qpDecode_lit c t hne
  case isFalse h =>
    split
    case isTrue h2 =>
      rw [qpUnitSrc, if_neg (not_lead_of_le c (by omega))]
      simpa using qpDecode_lit c t h2.2.2
    case isFalse h2 =>
      refine qpDecode_hexJoin _ t fun b hb => ?_
      rcases mem_qpUnitSrc hb with h | h
      · exact h ▸ hc
      · exact hr b h

theorem qpLoopF_decode :
    ∀ (fuel : Nat) (src : List Nat) (pos : Nat) (t : List Nat), src.length ≤ fuel →
      (∀ b ∈ src, b < 256) → qpDecode (qpLoopF fuel src pos ++ t) = src ++ qpDecode t := by
  intro fuel
  induction fuel with
  | zero =>
    intro src pos t hlen _
    obtain rfl : src = [] := List.eq_nil_of_length_eq_zero (Nat.le_zero.mp hlen)
    simp [qpLoopF]
  | succ n ih =>
    intro src pos t hlen hb
    match src with
    | [] => simp [qpLoopF]
    | c :: rest =>
      have hrecl : (qpRest c rest).length ≤ n := by
        have := length_qpRest_le c rest
        simp only [List.length_cons] at hlen
        omega
      have hrecb : ∀ b ∈ qpRest c rest, b < 256 := fun b hm =>
        hb b (List.mem_cons_of_mem c (mem_qpRest hm))
      have hc : c < 256 := hb c (List.mem_cons_self c rest)
      have hrb : ∀ b ∈ rest, b < 256 := fun b hm => hb b (List.mem_cons_of_mem c hm)
      simp only [qpLoopF]
      split
      · simp only [List.append_assoc, List.cons_append, List.nil_append]
        rw [show (61 : Nat) :: 13 :: 10 :: (qpEnc c rest ++ (qpLoopF n (qpRest c rest)
            (qpEnc c rest).length ++ t)) = [61, 13, 10] ++ (qpEnc c rest ++ (qpLoopF n
            (qpRest c rest) (qpEnc c rest).length ++ t)) from rfl]
        rw [qpDecode_break, qpDecode_qpEnc c rest _ hc hrb, ih _ _ t hrecl hrecb,
          ← List.append_assoc, qpUnitSrc_append_qpRest]
        simp
      · simp only [List.append_assoc]
        rw [qpDecode_qpEnc c rest _ hc hrb, ih _ _ t hrecl hrecb,
          ← List.append_assoc, qpUnitSrc_append_qpRest]

/-- Quoted-printable round trip: decoding the encoder's output restores the
input bytes exactly. -/
theorem qpDecode_QuotedPrintableEncode (src : List Nat) (hb : ∀ b ∈ src, b < 256) :
    qpDecode (QuotedPrintableEncode src) = src := by
  match src with
  | [] => rfl
  | c :: rest =>
    unfold QuotedPrintableEncode
    rw [qpLoop, qpLoopF_decode _ _ 0 _ (Nat.le_refl _) hb]
    split <;> simp [qpDecode]

/-- Position `k` of `src` lies strictly inside a UTF-8 rune: some earlier
lead byte at position `j` is followed by continuation bytes at every position
up to and including `k`.  Breaking the input into segments between positions
`k-1` and `k` would split that rune. -/
def insideRune (src : List Nat) (k : Nat) : Prop :=
  ∃ j, j < k ∧ isLeadB (src.getD j 0) = true ∧
    ∀ i, j < i → i ≤ k → isContB (src.getD i 0) = true

/-- Source positions at which encoder-loop iterations start (the atomic-unit
boundaries common to `QuotedPrintableEncode` and `QEncode`). -/
def unitStartsF : Nat → List Nat → Nat → List Nat
  | _, [], _ => []
  | 0, _ :: _, _ => []
  | fuel + 1, c :: rest, n =>
    n :: unitStartsF fuel (qpRest c rest) (n + (qpUnitSrc c rest).length)

/-- Source positions before which the `QuotedPrintableEncode` loop inserts a
soft break, mirroring the break decision of `qpLoopF` step by step. -/
def qpBreaksF : Nat → List Nat → Nat → Nat → List Nat
  | _, [], _, _ => []
  | 0, _ :: _, _, _ => []
  | fuel + 1, c :: rest, pos, n =>
    let enc := qpEnc c rest
    if pos + enc.length > 75 then
      n :: qpBreaksF fuel (qpRest c rest) enc.length (n + (qpUnitSrc c rest).length)
    else
      qpBreaksF fuel (qpRest c rest) (pos + enc.length) (n + (qpUnitSrc c rest).length)

/-- The soft-break positions of `QuotedPrintableEncode src`. -/
def qpBreaks (src : List Nat) : List Nat := qpBreaksF src.length src 0 0

theorem not_insideRune_zero (src : List Nat) : ¬insideRune src 0 := by
  rintro ⟨j, hj, -, -⟩
  omega

theorem getD_of_drop_cons {full : List Nat} {n c : Nat} {r : List Nat}
    (h : full.drop n = c :: r) : full.getD n 0 = c := by
  have h0 : full[n]? = some c := by
    have h1 := List.getElem?_drop full n 0
    rw [h] at h1
    simpa using h1.symm
  rw [List.getD_eq_getElem?_getD, h0]
  rfl

theorem dropWhile_head_false {p : Nat → Bool} :
    ∀ {l : List Nat} {d : Nat} {dtl : List Nat}, l.dropWhile p = d :: dtl → p d = false := by
  intro l
  induction l with
  | nil => intro d dtl h; simp at h
  | cons a l ih =>
    intro d dtl h
    rw [List.dropWhile_cons] at h
    split at h
    · exact ih h
    · rename_i hpa
      injection h with h1 _
      subst h1
      simpa using hpa

theorem drop_length_takeWhile (p : Nat → Bool) :
    ∀ l : List Nat, l.drop (l.takeWhile p).length = l.dropWhile p := by
  intro l
  induction l with
  | nil => rfl
  | cons a l ih =>
    by_cases hpa : p a
    · simp [List.takeWhile_cons, List.dropWhile_cons, hpa, ih]
    · simp [List.takeWhile_cons, List.dropWhile_cons, hpa]

theorem drop_qpRest {full : List Nat} {n c : Nat} {rest : List Nat}
    (h : full.drop n = c :: rest) :
    full.drop (n + (qpUnitSrc c rest).length) = qpRest c rest := by
  unfold qpUnitSrc qpRest
  split
  · simp only [List.length_cons]
    have h1 : full.drop (n + ((rest.takeWhile isContB).length + 1)) =
        (full.drop n).drop ((rest.takeWhile isContB).length + 1) := by
      rw [List.drop_drop, Nat.add_comm]
    rw [h1, h, List.drop_succ_cons, drop_length_takeWhile]
  · have h1 : full.drop (n + 1) = (full.drop n).drop 1 := by
      rw [List.drop_drop, Nat.add_comm]
    simp only [List.length_cons, List.length_nil]
    rw [h1, h, List.drop_succ_cons, List.drop_zero]

theorem not_inside_next {full : List Nat} {n c : Nat} {rest : List Nat}
    (h : full.drop n = c :: rest) (hn : ¬insideRune full n) :
    ¬insideRune full (n + (qpUnitSrc c rest).length) := by
  have hdrop := drop_qpRest h
  by_cases hl : c &&& 192 = 192
  · rw [qpRest, if_pos hl] at hdrop
    rintro ⟨j, hj, hlj, hall⟩
    have hcont := hall _ hj (Nat.le_refl _)
    rcases hdw : rest.dropWhile isContB with _ | ⟨d, dtl⟩
    · rw [hdw] at hdrop
      have hlen : full.length ≤ n + (qpUnitSrc c rest).length := List.drop_eq_nil_iff.mp hdrop
      rw [List.getD_eq_default _ _ hlen] at hcont
      simp [isContB] at hcont
    · rw [hdw] at hdrop
      rw [getD_of_drop_cons hdrop] at hcont
      have hfalse := dropWhile_head_false hdw
      rw [hcont] at hfalse
      cases hfalse
  · rw [qpUnitSrc, if_neg hl]
    rintro ⟨j, hj, hlj, hall⟩
    simp only [List.length_cons, List.length_nil, Nat.zero_add] at hj hall
    rcases Nat.lt_succ_iff_lt_or_eq.mp hj with hjn | rfl
    · exact hn ⟨j, hjn, hlj, fun i h1 h2 => hall i h1 (by omega)⟩
    · rw [getD_of_drop_cons h] at hlj
      simp [isLeadB] at hlj
      exact hl hlj

theorem unitStartsF_not_inside :
    ∀ (fuel : Nat) (src : List Nat) (n : Nat) (full : List Nat), full.drop n = src →
      ¬insideRune full n → ∀ k ∈ unitStartsF fuel src n, ¬insideRune full k := by
  intro fuel
  induction fuel with
  | zero =>
    intro src n full _ _ k hk
    cases src <;> simp [unitStartsF] at hk
  | succ m ih =>
    intro src n full hdrop hn k hk
    match src with
    | [] => simp [unitStartsF] at hk
    | c :: rest =>
      simp only [unitStartsF, List.mem_cons] at hk
      rcases hk with rfl | hk
      · exact hn
      · exact ih (qpRest c rest) _ full (drop_qpRest hdrop) (not_inside_next hdrop hn) k hk

theorem qpBreaksF_subset_unitStarts :
    ∀ (fuel : Nat) (src : List Nat) (pos n k : Nat), k ∈ qpBreaksF fuel src pos n →
      k ∈ unitStartsF fuel src n := by
  intro fuel
  induction fuel with
  | zero =>
    intro src pos n k hk
    cases src <;> simp [qpBreaksF] at hk
  | succ m ih =>
    intro src pos n k hk
    match src with
    | [] => simp [qpBreaksF] at hk
    | c :: rest =>
      simp only [qpBreaksF] at hk
      simp only [unitStartsF, List.mem_cons]
      split at hk
      · rcases List.mem_cons.mp hk with rfl | hk
        · exact Or.inl rfl
        · exact Or.inr (ih _ _ _ k hk)
      · exact Or.inr (ih _ _ _ k hk)

/-- No soft break of `QuotedPrintableEncode` falls inside a UTF-8 rune. -/
theorem qpBreaks_not_inside (src : List Nat) : ∀ k ∈ qpBreaks src, ¬insideRune src k :=
  fun k hk =>
    unitStartsF_not_inside src.length src 0 src (by simp) (not_insideRune_zero src) k
      (qpBreaksF_subset_unitStarts _ _ _ _ k hk)

/-- The bytes of the encoded-word opener `"=?utf-8?q?"` (encoding.go). -/
def qWord : List Nat := [61, 63, 117, 116, 102, 45, 56, 63, 113, 63]

/-- The bytes `enc` built by one iteration of the `QEncode` loop (encoding.go
lines 94-115): space becomes `_`; printable ASCII other than `=`, `?`, `_`
passes through; a UTF-8 rune is `=XX`-escaped byte by byte as one unit;
anything else is `=XX`-escaped. -/
def qEnc (c : Nat) (rest : List Nat) : List Nat :=
  if c = 32 then [95]
  else if 33 ≤ c ∧ c ≤ 126 ∧ c ≠ 61 ∧ c ≠ 63 ∧ c ≠ 95 then [c]
  else ((qpUnitSrc c rest).map encHex).flatten

/-- The main loop of `QEncode` (encoding.go lines 94-133).  `first` tracks
`len(dst) > 0` in the Go code (dst stays empty exactly until the first
iteration appends to it).  When a unit would push the line past 74, the
current encoded-word is closed with `?=`, a folding `CRLF`+space is emitted
and a new `=?utf-8?q?` word is opened (without the leading `?=` when nothing
was written yet); the closing `?=` of the final word is added by `QEncode`. -/
def qLoopF : Nat → List Nat → Nat → Bool → List Nat × Nat
  | _, [], pos, _ => ([], pos)
  | 0, _ :: _, pos, _ => ([], pos)
  | fuel + 1, c :: rest, pos, first =>
    let enc := qEnc c rest
    if pos + enc.length > 74 then
      let r := qLoopF fuel (qpRest c rest) (enc.length + 11) false
      ((cond first ([13, 10, 32] ++ qWord) ([63, 61, 13, 10, 32] ++ qWord)) ++ enc ++ r.1,
        r.2)
    else
      let r := qLoopF fuel (qpRest c rest) (pos + enc.length) false
      ((cond first qWord []) ++ enc ++ r.1, r.2)

/-- `QEncode` (encoding.go lines 69-137): `offset` is the header-line length
already used; it is clamped to at least 1, the invisible `=?utf-8?q?` opener
counts 10 columns, and the final `?=` closes the last encoded-word. -/
def QEncode (src : List Nat) (offset : Nat) : List Nat × Nat :=
  match src with
  | [] => ([], offset)
  | _ :: _ =>
    let off := if offset < 1 then 1 else offset
    let r := qLoopF src.length src (10 + off) true
    (r.1 ++ [63, 61], r.2 + 2)

/-- `QEncodeIfNeeded` (encoding.go lines 140-150): returns the input
unchanged when every byte is printable ASCII (space through tilde). -/
def QEncodeIfNeeded (src : List Nat) (offset : Nat) : List Nat :=
  if src.all (fun c => 32 ≤ c && c ≤ 126) then src else (QEncode src offset).1

example : QEncode (strB "test ") 32 = (strB "=?utf-8?q?test_?=", 49) := by decide
example : QEncode (strB "test\n me") 32 = (strB "=?utf-8?q?test=0A_me?=", 54) := by decide
set_option maxRecDepth 8000 in
example :
    QEncode (strB "Lorem ipsum dolor sit amet, no sit enim fugit, solum omittam evertitur qui cu. Usu ad sonet facilisis, cu partem platonem conceptam has. Tincidunt scribentur nec ex, eu hinc quodsi consequat quo, ex est labore fuisset. Vel semper salutatus ne.") 32 =
      (strB "=?utf-8?q?Lorem_ipsum_dolor_sit_amet,_no_s?=" ++ [13, 10] ++
        strB " =?utf-8?q?it_enim_fugit,_solum_omittam_evertitur_qui_cu._Usu_ad_sonet_fac?=" ++
          [13, 10] ++
        strB " =?utf-8?q?ilisis,_cu_partem_platonem_conceptam_has._Tincidunt_scribentur_?=" ++
          [13, 10] ++
        strB " =?utf-8?q?nec_ex,_eu_hinc_quodsi_consequat_quo,_ex_est_labore_fuisset._Ve?=" ++
          [13, 10] ++
        strB " =?utf-8?q?l_semper_salutatus_ne.?=", 35) := by decide

/-- Decoder for the Q-encoded output, following the claim's decoding
procedure: remove the fold markers `?=`+CRLF+space+`=?utf-8?q?` between
encoded-words, drop the final `?=`, un-escape every `=XX` hex escape, map `_`
back to space, and pass everything else through (`qDecode` below strips the
wrapper opener first). -/
def qBody (l : List Nat) : List Nat :=
  match l with
  | [] => []
  | c :: rest =>
    if c = 63 then
      if rest.take 14 = [61, 13, 10, 32, 61, 63, 117, 116, 102, 45, 56, 63, 113, 63] then
        qBody (rest.drop 14)
      else if rest = [61] then []
      else 63 :: qBody rest
    else if c = 61 then
      match rest with
      | r1 :: r2 :: rest2 =>
        if isHexUpper r1 ∧ isHexUpper r2 then (16 * unhexDigit r1 + unhexDigit r2) :: qBody rest2
        else 61 :: qBody (r1 :: r2 :: rest2)
      | [] => [61]
      | [r1] => 61 :: qBody [r1]
    else if c = 95 then 32 :: qBody rest
    else c :: qBody rest
termination_by l.length
decreasing_by all_goals simp [List.length_drop] <;> omega

/-- Decoder entry point for `QEncode` output: strip the leading fold marker
CRLF+space (present when not even one character fits on the first line) and
the `=?utf-8?q?` opener, then decode the body. -/
def qDecode (out : List Nat) : List Nat :=
  match out with
  | 13 :: 10 :: 32 :: 61 :: 63 :: 117 :: 116 :: 102 :: 45 :: 56 :: 63 :: 113 :: 63 :: rest =>
    qBody rest
  | 61 :: 63 :: 117 :: 116 :: 102 :: 45 :: 56 :: 63 :: 113 :: 63 :: rest => qBody rest
  | rest => qBody rest

theorem qBody_nil : qBody [] = [] := by
  rw [qBody.eq_def]

theorem qBody_final : qBody [63, 61] = [] := by
  rw [qBody.eq_def]
  simp [qBody_nil]

theorem qBody_sep (t : List Nat) :
    qBody (63 :: 61 :: 13 :: 10 :: 32 :: (qWord ++ t)) = qBody t := by
  rw [qBody.eq_def]
  simp [qWord]

theorem qBody_lit (c : Nat) (t : List Nat) (h1 : c ≠ 61) (h2 : c ≠ 63) (h3 : c ≠ 95) :
    qBody (c :: t) = c :: qBody t := by
  rw [qBody.eq_def]
  simp [h1, h2, h3]

theorem qBody_space (t : List Nat) : qBody (95 :: t) = 32 :: qBody t := by
  rw [qBody.eq_def]
  norm_num

set_option maxRecDepth 4000 in
theorem hexAt_spec :
    ∀ b, b < 256 →
      ¬(hexAt (b >>> 4) = 13 ∧ hexAt (b &&& 15) = 10) ∧
      (hexAt (b >>> 4) ≠ 63 ∧ hexAt (b &&& 15) ≠ 63) ∧
      (isHexUpper (hexAt (b >>> 4)) ∧ isHexUpper (hexAt (b &&& 15))) ∧
      16 * unhexDigit (hexAt (b >>> 4)) + unhexDigit (hexAt (b &&& 15)) = b := by
  decide

theorem qBody_encHex (b : Nat) (hb : b < 256) (t : List Nat) :
    qBody (encHex b ++ t) = b :: qBody t := by
  obtain ⟨-, ⟨h63a, h63b⟩, ⟨h2a, h2b⟩, h3⟩ := hexAt_spec b hb
  simp only [encHex, List.cons_append, List.nil_append]
  rw [qBody.eq_def]
  simp [h2a, h2b, h3]

theorem qBody_hexJoin (l t : List Nat) (h : ∀ b ∈ l, b < 256) :
    qBody ((l.map encHex).flatten ++ t) = l ++ qBody t := by
  induction l with
  | nil => simp
  | cons b l ih =>
    simp only [List.map_cons, List.flatten_cons, List.append_assoc, List.cons_append]
    rw [qBody_encHex b (h b (List.mem_cons_self b l)) _,
      ih fun x hx => h x (List.mem_cons_of_mem b hx)]

theorem qBody_qEnc (c : Nat) (rest t : List Nat) (hc : c < 256)
    (hr : ∀ b ∈ rest, b < 256) :
    qBody (qEnc c rest ++ t) = qpUnitSrc c rest ++ qBody t := by
  unfold qEnc
  split
  case isTrue h =>
    subst h
    rw [qpUnitSrc, if_neg (not_lead_of_le 32 (by omega))]
    simpa using qBody_space t
  case isFalse h =>
    split
    case isTrue h2 =>
      rw [qpUnitSrc, if_neg (not_lead_of_le c (by omega))]
      simpa using qBody_lit c t h2.2.2.1 h2.2.2.2.1 h2.2.2.2.2
    case isFalse h2 =>
      refine qBody_hexJoin _ t fun b hb => ?_
      rcases mem_qpUnitSrc hb with h | h
      · exact h ▸ hc
      · exact hr b h

theorem qLoopF_decode :
    ∀ (fuel : Nat) (src : List Nat) (pos : Nat), src.length ≤ fuel →
      (∀ b ∈ src, b < 256) →
      qBody ((qLoopF fuel src pos false).1 ++ [63, 61]) = src := by
  intro fuel
  induction fuel with
  | zero =>
    intro src pos hlen _
    obtain rfl : src = [] := List.eq_nil_of_length_eq_zero (Nat.le_zero.mp hlen)
    simpa [qLoopF] using qBody_final
  | succ n ih =>
    intro src pos hlen hbm
    match src with
    | [] => simpa [qLoopF] using qBody_final
    | c :: rest =>
      have hrecl : (qpRest c rest).length ≤ n := by
        have := length_qpRest_le c rest
        simp only [List.length_cons] at hlen
        omega
      have hrecb : ∀ b ∈ qpRest c rest, b < 256 := fun b hm =>
        hbm b (List.mem_cons_of_mem c (mem_qpRest hm))
      have hc : c < 256 := hbm c (List.mem_cons_self c rest)
      have hrb : ∀ b ∈ rest, b < 256 := fun b hm => hbm b (List.mem_cons_of_mem c hm)
      rw [qLoopF]
      split
      · simp only [Bool.cond_false, List.cons_append, List.nil_append, List.append_assoc]
        rw [qBody_sep, qBody_qEnc c rest _ hc hrb, ih _ _ hrecl hrecb]
        exact qpUnitSrc_append_qpRest c rest
      · simp only [Bool.cond_false, List.cons_append, List.nil_append, List.append_assoc]
        rw [qBody_qEnc c rest _ hc hrb, ih _ _ hrecl hrecb]
        exact qpUnitSrc_append_qpRest c rest

theorem qDecode_fold (x : List Nat) : qDecode (13 :: 10 :: 32 :: (qWord ++ x)) = qBody x := rfl

theorem qDecode_word (x : List Nat) : qDecode (qWord ++ x) = qBody x := rfl

theorem qDecode_qLoopF_top (c : Nat) (rest : List Nat) (pos : Nat) (hc : c < 256)
    (hrb : ∀ b ∈ rest, b < 256) :
    qDecode ((qLoopF (rest.length + 1) (c :: rest) pos true).1 ++ [63, 61]) = c :: rest := by
  have hrecl : (qpRest c rest).length ≤ rest.length := length_qpRest_le c rest
  have hrecb : ∀ b ∈ qpRest c rest, b < 256 := fun b hm => hrb b (mem_qpRest hm)
  rw [qLoopF]
  split
  · simp only [Bool.cond_true, List.cons_append, List.nil_append, List.append_assoc]
    rw [qDecode_fold, qBody_qEnc c rest _ hc hrb, qLoopF_decode _ _ _ hrecl hrecb]
    exact qpUnitSrc_append_qpRest c rest
  · simp only [Bool.cond_true, List.cons_append, List.nil_append, List.append_assoc]
    rw [qDecode_word, qBody_qEnc c rest _ hc hrb, qLoopF_decode _ _ _ hrecl hrecb]
    exact qpUnitSrc_append_qpRest c rest

/-- Q-encoding round trip: decoding the encoder's output restores the input
bytes exactly, for every starting offset. -/
theorem qDecode_QEncode (src : List Nat) (hb : ∀ b ∈ src, b < 256) (offset : Nat) :
    qDecode (QEncode src offset).1 = src := by
  match src with
  | [] => exact qBody_nil
  | c :: rest =>
    have hrb : ∀ b ∈ rest, b < 256 := fun b hm => hb b (List.mem_cons_of_mem c hm)
    have hc : c < 256 := hb c (List.mem_cons_self c rest)
    simp only [QEncode, List.length_cons]
    exact qDecode_qLoopF_top c rest _ hc hrb

/-- Source positions before which the `QEncode` loop folds the header line,
mirroring the fold decision of `qLoopF` step by step. -/
def qBreaksF : Nat → List Nat → Nat → Nat → List Nat
  | _, [], _, _ => []
  | 0, _ :: _, _, _ => []
  | fuel + 1, c :: rest, pos, n =>
    let enc := qEnc c rest
    if pos + enc.length > 74 then
      n :: qBreaksF fuel (qpRest c rest) (enc.length + 11) (n + (qpUnitSrc c rest).length)
    else
      qBreaksF fuel (qpRest c rest) (pos + enc.length) (n + (qpUnitSrc c rest).length)

/-- The fold positions of `QEncode src offset`. -/
def qBreaks (src : List Nat) (offset : Nat) : List Nat :=
  qBreaksF src.length src (10 + (if offset < 1 then 1 else offset)) 0

theorem qBreaksF_subset_unitStarts :
    ∀ (fuel : Nat) (src : List Nat) (pos n k : Nat), k ∈ qBreaksF fuel src pos n →
      k ∈ unitStartsF fuel src n := by
  intro fuel
  induction fuel with
  | zero =>
    intro src pos n k hk
    cases src <;> simp [qBreaksF] at hk
  | succ m ih =>
    intro src pos n k hk
    match src with
    | [] => simp [qBreaksF] at hk
    | c :: rest =>
      simp only [qBreaksF] at hk
      simp only [unitStartsF, List.mem_cons]
      split at hk
      · rcases List.mem_cons.mp hk with rfl | hk
        · exact Or.inl rfl
        · exact Or.inr (ih _ _ _ k hk)
      · exact Or.inr (ih _ _ _ k hk)

/-- No header fold of `QEncode` falls inside a UTF-8 rune. -/
theorem qBreaks_not_inside (src : List Nat) (offset : Nat) :
    ∀ k ∈ qBreaks src offset, ¬insideRune src k :=
  fun k hk =>
    unitStartsF_not_inside src.length src 0 src (by simp) (not_insideRune_zero src) k
      (qBreaksF_subset_unitStarts _ _ _ _ k hk)

/-- Claim C1: for every input byte sequence, the outputs of
`QuotedPrintableEncode` and of `QEncode` (at any offset) never split a
multi-byte UTF-8 sequence across a soft or folded line break (no break
position of either encoder falls strictly inside a UTF-8 rune of the input),
and decoding the output — removing the soft-break marker `=CRLF`
(quoted-printable) and the fold marker `?=`+CRLF+space+`=?utf-8?q?`
(Q-encoding, together with its word wrapper), then un-escaping every `=XX`
hex escape (and `_` back to space for Q-encoding) — yields exactly the
original input bytes. -/
theorem C1_rune_atomic_roundtrip (src : List Nat) (hb : ∀ b ∈ src, b < 256) :
    qpDecode (QuotedPrintableEncode src) = src ∧
    (∀ k ∈ qpBreaks src, ¬insideRune src k) ∧
    ∀ offset : Nat, qDecode (QEncode src offset).1 = src ∧
      ∀ k ∈ qBreaks src offset, ¬insideRune src k :=
  ⟨qpDecode_QuotedPrintableEncode src hb, qpBreaks_not_inside src,
    fun offset => ⟨qDecode_QEncode src hb offset, qBreaks_not_inside src offset⟩⟩

/-- The bytes of `"Test …"` (UTF-8, with a trailing space before the
three-byte ellipsis), used as the concrete witness input for claim C1. -/
def c1input : List Nat := [84, 101, 115, 116, 32, 226, 128, 166]

theorem C1_rune_atomic_roundtrip_witness :
    (∀ b ∈ c1input, b < 256) ∧
    (qpDecode (QuotedPrintableEncode c1input) = c1input ∧
      (∀ k ∈ qpBreaks c1input, ¬insideRune c1input k) ∧
      ∀ offset : Nat, qDecode (QEncode c1input offset).1 = c1input ∧
        ∀ k ∈ qBreaks c1input offset, ¬insideRune c1input k) :=
  ⟨by decide, C1_rune_atomic_roundtrip c1input (by decide)⟩

/-! ### Base64 codec (claim C2) -/

/-- Indexing into `base64table`. -/
def b64At (n : Nat) : Nat := base64table.getD n 0

/-- The four output bytes of a full 3-byte group, with the bit formulas of
encoding.go lines 212-216. -/
def goChars3 (b0 b1 b2 : Nat) : List Nat :=
  [b64At (b0 >>> 2), b64At ((b1 >>> 4) ||| ((b0 <<< 4) &&& 63)),
    b64At ((b2 >>> 6) ||| ((b1 <<< 2) &&& 63)), b64At (b2 &&& 63)]

/-- The padded output of a final 2-byte group (encoding.go lines 206-211). -/
def goChars2 (b0 b1 : Nat) : List Nat :=
  [b64At (b0 >>> 2), b64At ((b1 >>> 4) ||| ((b0 <<< 4) &&& 63)),
    b64At ((b1 <<< 2) &&& 63), 61]

/-- The padded output of a final 1-byte group (encoding.go lines 201-205). -/
def goChars1 (b0 : Nat) : List Nat :=
  [b64At (b0 >>> 2), b64At ((b0 <<< 4) &&& 63), 61, 61]

/-- CRLF placement for one 4-character group, mirroring `switch 76 - lpos`
(encoding.go lines 173-198): the Go code writes the group and the forced
CRLF contiguously at the output cursor, with the destination offsets
`p[0..3]` placing 0-3 of the group's characters before the CRLF. -/
def b64Emit (chars : List Nat) (lpos : Nat) : List Nat :=
  if lpos = 76 then [13, 10] ++ chars
  else if lpos = 75 then chars.take 1 ++ [13, 10] ++ chars.drop 1
  else if lpos = 74 then chars.take 2 ++ [13, 10] ++ chars.drop 2
  else if lpos = 73 then chars.take 3 ++ [13, 10] ++ chars.drop 3
  else chars

/-- The `lpos` value after one group, mirroring the same `switch`. -/
def b64Next (lpos : Nat) : Nat :=
  if lpos = 76 then 4
  else if lpos = 75 then 3
  else if lpos = 74 then 2
  else if lpos = 73 then 1
  else lpos + 4

/-- The `Base64Encode` loop (encoding.go lines 171-219): each full 3-byte
group emits 4 characters with a CRLF inserted where the 76-character line
fills; a final group of 1 or 2 leftover bytes emits its `=`-padded 4
characters and returns. -/
def b64Loop : List Nat → Nat → List Nat
  | [], _ => []
  | [b0], lpos => b64Emit (goChars1 b0) lpos
  | [b0, b1], lpos => b64Emit (goChars2 b0 b1) lpos
  | b0 :: b1 :: b2 :: rest, lpos =>
    b64Emit (goChars3 b0 b1 b2) lpos ++ b64Loop rest (b64Next lpos)

/-- `Base64Encode` (encoding.go lines 158-222). -/
def Base64Encode (src : List Nat) : List Nat := b64Loop src 0

example : Base64Encode (strB "hello") = strB "aGVsbG8=" := by decide
set_option maxRecDepth 4000 in
example :
    Base64Encode (List.range 60) =
      strB "AAECAwQFBgcICQoLDA0ODxAREhMUFRYXGBkaGxwdHh8gISIjJCUmJygpKissLS4vMDEyMzQ1Njc4" ++
        [13, 10] ++ strB "OTo7" := by decide

/-- Modelled from the spec: the standard base64 alphabet. -/
def stdAlphabet : List Nat :=
  strB "ABCDEFGHIJKLMNOPQRSTUVWXYZabcdefghijklmnopqrstuvwxyz0123456789+/"

/-- Modelled from the spec: standard base64 with padding (RFC 4648 /
`encoding/base64.StdEncoding`): big-endian 24-bit groups split into 6-bit
indices into the standard alphabet, `=`-padded at the end. -/
def stdB64 : List Nat → List Nat
  | [] => []
  | [b0] =>
    let n := b0 * 65536
    [stdAlphabet.getD (n / 262144 % 64) 0, stdAlphabet.getD (n / 4096 % 64) 0, 61, 61]
  | [b0, b1] =>
    let n := b0 * 65536 + b1 * 256
    [stdAlphabet.getD (n / 262144 % 64) 0, stdAlphabet.getD (n / 4096 % 64) 0,
      stdAlphabet.getD (n / 64 % 64) 0, 61]
  | b0 :: b1 :: b2 :: rest =>
    let n := b0 * 65536 + b1 * 256 + b2
    stdAlphabet.getD (n / 262144 % 64) 0 :: stdAlphabet.getD (n / 4096 % 64) 0 ::
      stdAlphabet.getD (n / 64 % 64) 0 :: stdAlphabet.getD (n % 64) 0 :: stdB64 rest

/-- Modelled from the spec: break a string into lines of at most 76
characters separated by CRLF, with no trailing CRLF after the last line. -/
def wrap76 (l : List Nat) : List Nat :=
  if l.length ≤ 76 then l else l.take 76 ++ [13, 10] ++ wrap76 (l.drop 76)
termination_by l.length
decreasing_by simp [List.length_drop]; omega

/-- Wrapping with `room` characters left on the current line (76 on later
lines); relates the in-flight state of the Go loop to `wrap76`. -/
def wrapAux (l : List Nat) (room : Nat) : List Nat :=
  if l = [] then []
  else if l.length ≤ room then l
  else l.take room ++ [13, 10] ++ wrapAux (l.drop room) 76
termination_by 2 * l.length + (1 - room)
decreasing_by
  simp only [List.length_drop]
  omega

theorem wrapAux_nil (room : Nat) : wrapAux [] room = [] := by
  rw [wrapAux]
  simp

theorem wrapAux_append (g t : List Nat) (room : Nat) (h : g.length ≤ room) :
    wrapAux (g ++ t) room = g ++ wrapAux t (room - g.length) := by
  by_cases hgt : g ++ t = []
  · rcases List.append_eq_nil.mp hgt with ⟨rfl, rfl⟩
    simp [wrapAux_nil]
  · by_cases hle : (g ++ t).length ≤ room
    · rw [wrapAux, if_neg hgt, if_pos hle]
      by_cases ht : t = []
      · subst ht
        simp [wrapAux_nil]
      · rw [wrapAux, if_neg ht,
          if_pos (by simp only [List.length_append] at hle; omega)]
    · rw [wrapAux, if_neg hgt, if_neg hle]
      have htne : t ≠ [] := by
        intro h'
        subst h'
        simp only [List.length_append, List.length_nil, Nat.add_zero] at hle
        omega
      have h2 : ¬(t.length ≤ room - g.length) := by
        simp only [List.length_append] at hle
        omega
      conv_rhs => rw [wrapAux, if_neg htne, if_neg h2]
      rw [List.take_append_eq_append_take, List.drop_append_eq_append_drop]
      rw [List.take_of_length_le h, List.drop_eq_nil_of_le h]
      simp [List.append_assoc]

theorem b64Next_le (lpos : Nat) (h : lpos ≤ 76) : b64Next lpos ≤ 76 := by
  unfold b64Next
  split
  · omega
  · split
    · omega
    · split
      · omega
      · split
        · omega
        · rename_i h76 h75 h74 h73
          omega

/-- Relates one group step of the Go loop to the wrapping of the whole
remaining character stream. -/
theorem b64Emit_wrap (a1 a2 a3 a4 : Nat) (t : List Nat) (lpos : Nat) (hl : lpos ≤ 76) :
    wrapAux (a1 :: a2 :: a3 :: a4 :: t) (76 - lpos) =
      b64Emit [a1, a2, a3, a4] lpos ++ wrapAux t (76 - b64Next lpos) := by
  unfold b64Emit b64Next
  by_cases h76 : lpos = 76
  · subst h76
    simp only [if_pos rfl]
    rw [show (76 : Nat) - 76 = 0 from rfl, wrapAux, if_neg (by simp),
      if_neg (by simp only [List.length_cons]; omega)]
    rw [show ∀ l : List Nat, l.drop 0 = l from fun _ => rfl]
    rw [show (a1 :: a2 :: a3 :: a4 :: t) = [a1, a2, a3, a4] ++ t from rfl,
      wrapAux_append _ _ 76 (by simp)]
    simp
  · by_cases h75 : lpos = 75
    · subst h75
      simp only [if_neg (by omega : ¬(75 : Nat) = 76), if_pos rfl]
      rw [show (76 : Nat) - 75 = 1 from rfl, wrapAux, if_neg (by simp),
        if_neg (by simp only [List.length_cons]; omega)]
      rw [show (a1 :: a2 :: a3 :: a4 :: t).drop 1 = [a2, a3, a4] ++ t from rfl,
        wrapAux_append _ _ 76 (by simp)]
      simp
    · by_cases h74 : lpos = 74
      · subst h74
        simp only [if_neg (by omega : ¬(74 : Nat) = 76), if_neg (by omega : ¬(74 : Nat) = 75),
          if_pos rfl]
        rw [show (76 : Nat) - 74 = 2 from rfl, wrapAux, if_neg (by simp),
          if_neg (by simp only [List.length_cons]; omega)]
        rw [show (a1 :: a2 :: a3 :: a4 :: t).drop 2 = [a3, a4] ++ t from rfl,
          wrapAux_append _ _ 76 (by simp)]
        simp
      · by_cases h73 : lpos = 73
        · subst h73
          simp only [if_neg (by omega : ¬(73 : Nat) = 76),
            if_neg (by omega : ¬(73 : Nat) = 75), if_neg (by omega : ¬(73 : Nat) = 74),
            if_pos rfl]
          rw [show (76 : Nat) - 73 = 3 from rfl, wrapAux, if_neg (by simp),
            if_neg (by simp only [List.length_cons]; omega)]
          rw [show (a1 :: a2 :: a3 :: a4 :: t).drop 3 = [a4] ++ t from rfl,
            wrapAux_append _ _ 76 (by simp)]
          simp
        · rw [if_neg h76, if_neg h75, if_neg h74, if_neg h73, if_neg h76, if_neg h75,
            if_neg h74, if_neg h73]
          rw [show (a1 :: a2 :: a3 :: a4 :: t) = [a1, a2, a3, a4] ++ t from rfl,
            wrapAux_append _ _ _ (by simp; omega)]
          have : 76 - lpos - [a1, a2, a3, a4].length = 76 - (lpos + 4) := by
            simp only [List.length_cons, List.length_nil]
            omega
          rw [this]

theorem b64Emit_wrap_nil (a1 a2 a3 a4 : Nat) (lpos : Nat) (hl : lpos ≤ 76) :
    wrapAux [a1, a2, a3, a4] (76 - lpos) = b64Emit [a1, a2, a3, a4] lpos := by
  have h := b64Emit_wrap a1 a2 a3 a4 [] lpos hl
  simpa [wrapAux_nil] using h

theorem lor_low_sixteen : ∀ x, x < 16 → ∀ k, k < 4 → x ||| 16 * k = 16 * k + x := by decide

theorem lor_low_four : ∀ x, x < 4 → ∀ k, k < 16 → x ||| 4 * k = 4 * k + x := by decide

theorem b64At_eq_std (n : Nat) : b64At n = stdAlphabet.getD n 0 := rfl

theorem goChars3_eq (b0 b1 b2 : Nat) (h0 : b0 < 256) (h1 : b1 < 256) (h2 : b2 < 256) :
    goChars3 b0 b1 b2 =
      [stdAlphabet.getD ((b0 * 65536 + b1 * 256 + b2) / 262144 % 64) 0,
        stdAlphabet.getD ((b0 * 65536 + b1 * 256 + b2) / 4096 % 64) 0,
        stdAlphabet.getD ((b0 * 65536 + b1 * 256 + b2) / 64 % 64) 0,
        stdAlphabet.getD ((b0 * 65536 + b1 * 256 + b2) % 64) 0] := by
  have s0 : b0 >>> 2 = b0 / 4 := by rw [Nat.shiftRight_eq_div_pow]
  have s1 : b1 >>> 4 = b1 / 16 := by rw [Nat.shiftRight_eq_div_pow]
  have s2 : b2 >>> 6 = b2 / 64 := by rw [Nat.shiftRight_eq_div_pow]
  have ha : (b0 <<< 4) &&& 63 = 16 * (b0 % 4) := by
    rw [Nat.and_pow_two_sub_one_eq_mod _ 6, Nat.shiftLeft_eq]
    norm_num
    omega
  have hb : (b1 <<< 2) &&& 63 = 4 * (b1 % 16) := by
    rw [Nat.and_pow_two_sub_one_eq_mod _ 6, Nat.shiftLeft_eq]
    norm_num
    omega
  have e0 : b0 >>> 2 = (b0 * 65536 + b1 * 256 + b2) / 262144 % 64 := by rw [s0]; omega
  have e1 : (b1 >>> 4) ||| ((b0 <<< 4) &&& 63) =
      (b0 * 65536 + b1 * 256 + b2) / 4096 % 64 := by
    rw [s1, ha, lor_low_sixteen _ (by omega) _ (by omega)]
    omega
  have e2 : (b2 >>> 6) ||| ((b1 <<< 2) &&& 63) =
      (b0 * 65536 + b1 * 256 + b2) / 64 % 64 := by
    rw [s2, hb, lor_low_four _ (by omega) _ (by omega)]
    omega
  have e3 : b2 &&& 63 = (b0 * 65536 + b1 * 256 + b2) % 64 := by
    rw [Nat.and_pow_two_sub_one_eq_mod _ 6]
    omega
  rw [goChars3, e0, e1, e2, e3, b64At_eq_std, b64At_eq_std, b64At_eq_std, b64At_eq_std]

theorem goChars2_eq (b0 b1 : Nat) (h0 : b0 < 256) (h1 : b1 < 256) :
    goChars2 b0 b1 =
      [stdAlphabet.getD ((b0 * 65536 + b1 * 256) / 262144 % 64) 0,
        stdAlphabet.getD ((b0 * 65536 + b1 * 256) / 4096 % 64) 0,
        stdAlphabet.getD ((b0 * 65536 + b1 * 256) / 64 % 64) 0, 61] := by
  have s0 : b0 >>> 2 = b0 / 4 := by rw [Nat.shiftRight_eq_div_pow]
  have s1 : b1 >>> 4 = b1 / 16 := by rw [Nat.shiftRight_eq_div_pow]
  have ha : (b0 <<< 4) &&& 63 = 16 * (b0 % 4) := by
    rw [Nat.and_pow_two_sub_one_eq_mod _ 6, Nat.shiftLeft_eq]
    norm_num
    omega
  have hb : (b1 <<< 2) &&& 63 = 4 * (b1 % 16) := by
    rw [Nat.and_pow_two_sub_one_eq_mod _ 6, Nat.shiftLeft_eq]
    norm_num
    omega
  have e0 : b0 >>> 2 = (b0 * 65536 + b1 * 256) / 262144 % 64 := by rw [s0]; omega
  have e1 : (b1 >>> 4) ||| ((b0 <<< 4) &&& 63) = (b0 * 65536 + b1 * 256) / 4096 % 64 := by
    rw [s1, ha, lor_low_sixteen _ (by omega) _ (by omega)]
    omega
  have e2 : (b1 <<< 2) &&& 63 = (b0 * 65536 + b1 * 256) / 64 % 64 := by
    rw [hb]
    omega
  rw [goChars2, e0, e1, e2, b64At_eq_std, b64At_eq_std, b64At_eq_std]

theorem goChars1_eq (b0 : Nat) (h0 : b0 < 256) :
    goChars1 b0 =
      [stdAlphabet.getD (b0 * 65536 / 262144 % 64) 0,
        stdAlphabet.getD (b0 * 65536 / 4096 % 64) 0, 61, 61] := by
  have s0 : b0 >>> 2 = b0 / 4 := by rw [Nat.shiftRight_eq_div_pow]
  have ha : (b0 <<< 4) &&& 63 = 16 * (b0 % 4) := by
    rw [Nat.and_pow_two_sub_one_eq_mod _ 6, Nat.shiftLeft_eq]
    norm_num
    omega
  have e0 : b0 >>> 2 = b0 * 65536 / 262144 % 64 := by rw [s0]; omega
  have e1 : (b0 <<< 4) &&& 63 = b0 * 65536 / 4096 % 64 := by rw [ha]; omega
  rw [goChars1, e0, e1, b64At_eq_std, b64At_eq_std]

theorem b64Loop_wrap :
    ∀ (n : Nat) (src : List Nat), src.length ≤ n → (∀ b ∈ src, b < 256) →
      ∀ lpos, lpos ≤ 76 → b64Loop src lpos = wrapAux (stdB64 src) (76 - lpos) := by
  intro n
  induction n with
  | zero =>
    intro src hlen _ lpos _
    obtain rfl : src = [] := List.eq_nil_of_length_eq_zero (Nat.le_zero.mp hlen)
    simp [b64Loop, stdB64, wrapAux_nil]
  | succ m ih =>
    intro src hlen hb lpos hl
    match src with
    | [] => simp [b64Loop, stdB64, wrapAux_nil]
    | [b0] =>
      simp only [b64Loop, stdB64]
      rw [goChars1_eq b0 (hb b0 (by simp)), b64Emit_wrap_nil _ _ _ _ lpos hl]
    | [b0, b1] =>
      simp only [b64Loop, stdB64]
      rw [goChars2_eq b0 b1 (hb b0 (by simp)) (hb b1 (by simp)),
        b64Emit_wrap_nil _ _ _ _ lpos hl]
    | b0 :: b1 :: b2 :: rest =>
      simp only [b64Loop, stdB64]
      rw [goChars3_eq b0 b1 b2 (hb b0 (by simp)) (hb b1 (by simp)) (hb b2 (by simp)),
        b64Emit_wrap _ _ _ _ _ lpos hl,
        ih rest (by simp only [List.length_cons] at hlen; omega)
          (fun b hm => hb b (by simp [hm])) (b64Next lpos) (b64Next_le lpos hl)]

/-- Claim C2: for every input byte sequence (all lengths, including the 0, 1
and 2 remainder-byte boundary cases), `Base64Encode src` equals the result of
encoding `src` with the standard base64 alphabet and padding, then breaking
that string into lines of at most 76 characters separated by CRLF, with no
trailing CRLF after the last line. -/
theorem C2_base64_std_wrap (src : List Nat) (hb : ∀ b ∈ src, b < 256) :
    Base64Encode src = wrap76 (stdB64 src) := by
  have h : Base64Encode src = wrapAux (stdB64 src) (76 - 0) :=
    b64Loop_wrap src.length src (Nat.le_refl _) hb 0 (by omega)
  rw [h]
  clear h
  generalize stdB64 src = l
  induction l using wrap76.induct
  · rename_i l hle
    rw [wrap76, if_pos hle, wrapAux]
    split
    · rename_i h
      subst h
      rfl
    · rfl
  · rename_i l hgt ih
    rw [wrap76, if_neg hgt, wrapAux, if_neg (by intro h; subst h; simp at hgt),
      if_neg hgt, ih]

theorem C2_base64_std_wrap_witness :
    (∀ b ∈ List.range 121, b < 256) ∧
      Base64Encode (List.range 121) = wrap76 (stdB64 (List.range 121)) :=
  ⟨by decide, C2_base64_std_wrap (List.range 121) (by decide)⟩

/-! ### Address validity check (claim C5) -/

/-- The `SeemsValidAddr` loop (address.go lines 24-51), carrying the four
tracking flags.  Go ranges over the string's runes; over the bytes of a UTF-8
string the result coincides, because a rune above ASCII fails the
`'!' ≤ char ≤ '~'` test exactly when its first byte (≥ 0x80 > `~`) does, and
both return false right there.  In the default branch the Go code assigns
`seenDom = !seenDot` and `seenTld = seenDot` from the old `seenDot`, which is
not reset. -/
def seemsValidLoop : List Nat → Bool → Bool → Bool → Bool → Bool
  | [], _, _, _, seenTld => seenTld
  | ch :: rest, seenAt, seenDom, seenDot, seenTld =>
    if ch = 64 then
      if seenAt then false
      else seemsValidLoop rest true seenDom seenDot seenTld
    else if ch = 46 then
      seemsValidLoop rest seenAt seenDom (seenAt && seenDom) seenTld
    else if 33 > ch ∨ ch > 126 then false
    else if seenAt then
      if ch = 91 ∨ ch = 93 ∨ ch = 92 then false
      else seemsValidLoop rest seenAt (!seenDot) seenDot seenDot
    else seemsValidLoop rest seenAt seenDom seenDot seenTld

/-- `SeemsValidAddr` (address.go lines 24-51). -/
def SeemsValidAddr (addr : List Nat) : Bool :=
  seemsValidLoop addr false false false false

example : SeemsValidAddr (strB "test@example.com") = true := by decide
example : SeemsValidAddr (strB "testexample.com") = false := by decide
example : SeemsValidAddr (strB "te@st@example.com") = false := by decide
example : SeemsValidAddr (strB "test@examplecom") = false := by decide
example : SeemsValidAddr (strB "test@exa[mple.com") = false := by decide

/-- Claim C5, evaluated at the failing input: the claim (and spec §8) says
`SeemsValidAddr` accepts ordinary `user@sub.domain.tld` forms, and the
function's own doc comment says it accepts a domain with a TLD part; but for
any domain with two or more dots the tracking flags end with `seenTld =
false` (after `.domain` the first letter sets `seenDom = !seenDot = false`
while `seenDot` stays true, so the second dot computes `seenDot = seenAt &&
seenDom = false` and the final label then clears `seenTld`), so the code
returns false.  Single-dot domains are accepted as claimed. -/
theorem C5_seems_valid_addr_failing :
    SeemsValidAddr (strB "user@sub.domain.tld") = false ∧
    SeemsValidAddr (strB "user@domain.tld") = true := by decide

/-! ### Address encoding (claim C6) -/

/-- `Address` (address.go lines 8-11), with both fields as byte lists. -/
structure Address where
  name : List Nat
  addr : List Nat
deriving DecidableEq

/-- `Address.encode` (address.go lines 71-127).  `nq` is modelled as the
count of backslash or quote bytes over the whole name: the Go loop stops
counting at the first unsafe byte, but `nq` is only read in the safe branch,
where that loop ran to completion. -/
def Address.encode (a : Address) (offset : Nat) : List Nat × Nat :=
  let la := a.addr.length
  let ln := a.name.length
  if ln > 0 then
    let nq := a.name.countP (fun c => c == 92 || c == 34)
    let safe := a.name.all (fun c => 32 ≤ c && c ≤ 126)
    if safe then
      let dst := 34 :: a.name.flatMap (fun c => if c = 92 ∨ c = 34 then [92, c] else [c])
      let offset2 := offset + ln + nq + 3
      if offset2 + la ≤ 74 then
        (dst ++ [34, 32] ++ [60] ++ a.addr ++ [62], offset2 + la + 2)
      else
        (dst ++ [34, 13, 10, 32] ++ [60] ++ a.addr ++ [62], 1 + la + 2)
    else
      let r := QEncode a.name offset
      let offset2 := r.2 + 1
      if offset2 + la ≤ 74 then
        (r.1 ++ [32] ++ [60] ++ a.addr ++ [62], offset2 + la + 2)
      else
        (r.1 ++ [13, 10, 32] ++ [60] ++ a.addr ++ [62], 1 + la + 2)
  else
    if offset + la ≤ 74 then
      ([60] ++ a.addr ++ [62], offset + la + 2)
    else
      ([13, 10, 32] ++ [60] ++ a.addr ++ [62], 1 + la + 2)

example : Address.encode ⟨[], strB "a@b.cd"⟩ 6 = (strB "<a@b.cd>", 14) := by decide
example :
    Address.encode ⟨strB "Jo Do", strB "a@b.cd"⟩ 6 =
      ([34] ++ strB "Jo Do" ++ [34, 32] ++ strB "<a@b.cd>", 22) := by decide

theorem flatMap_esc_id (name : List Nat) (h : ∀ c ∈ name, c ≠ 34 ∧ c ≠ 92) :
    name.flatMap (fun c => if c = 92 ∨ c = 34 then [92, c] else [c]) = name := by
  induction name with
  | nil => rfl
  | cons a l ih =>
    have ha := h a (List.mem_cons_self a l)
    rw [List.flatMap_cons, if_neg (by omega), ih fun c hc => h c (List.mem_cons_of_mem a hc)]
    rfl

/-- Claim C6: for every `Address` whose display name is non-empty and
contains only printable-ASCII bytes with no quote or backslash,
`Address.encode` produces a quoted literal display name (the name surrounded
by double quotes, byte 34), never an RFC 2047 Q-encoded word; conversely,
for every `Address` whose display name contains a byte ≥ 0x80 or a control
byte, it always produces a Q-encoded word.  In both cases the output ends
with the address wrapped in `<` and `>`. -/
theorem C6_address_name_encoding (name addr : List Nat) (offset : Nat) :
    (name ≠ [] → (∀ c ∈ name, 32 ≤ c ∧ c ≤ 126 ∧ c ≠ 34 ∧ c ≠ 92) →
      (Address.encode ⟨name, addr⟩ offset).1 =
        [34] ++ name ++ [34] ++
          (if offset + name.length + 3 + addr.length ≤ 74 then [32] else [13, 10, 32]) ++
          [60] ++ addr ++ [62]) ∧
    ((∃ c ∈ name, 128 ≤ c ∨ c < 32) →
      (Address.encode ⟨name, addr⟩ offset).1 =
        (QEncode name offset).1 ++
          (if (QEncode name offset).2 + 1 + addr.length ≤ 74 then [32] else [13, 10, 32]) ++
          [60] ++ addr ++ [62]) := by
  constructor
  · intro hne hsafe
    have hlen : 0 < name.length := List.length_pos.mpr hne
    have hall : name.all (fun c => 32 ≤ c && c ≤ 126) = true := by
      rw [List.all_eq_true]
      intro c hc
      have := hsafe c hc
      simp only [Bool.and_eq_true, decide_eq_true_eq]
      omega
    have hnq : name.countP (fun c => c == 92 || c == 34) = 0 := by
      rw [List.countP_eq_zero]
      intro c hc
      have := hsafe c hc
      simp only [Bool.or_eq_true, beq_iff_eq]
      omega
    have hesc := flatMap_esc_id name fun c hc => ⟨(hsafe c hc).2.2.1, (hsafe c hc).2.2.2⟩
    unfold Address.encode
    simp only [hall, hnq, hesc, if_pos hlen, if_true]
    by_cases hcond : offset + name.length + 3 + addr.length ≤ 74
    · rw [if_pos (by omega : offset + name.length + 0 + 3 + addr.length ≤ 74), if_pos hcond]
      simp
    · rw [if_neg (by omega : ¬(offset + name.length + 0 + 3 + addr.length ≤ 74)),
        if_neg hcond]
      simp
  · intro hex
    obtain ⟨c, hc, hcr⟩ := hex
    have hne : name ≠ [] := by
      intro h
      subst h
      simp at hc
    have hlen : 0 < name.length := List.length_pos.mpr hne
    have hall : name.all (fun c => 32 ≤ c && c ≤ 126) = false := by
      rw [List.all_eq_false]
      exact ⟨c, hc, by simp only [Bool.and_eq_true, decide_eq_true_eq]; omega⟩
    unfold Address.encode
    simp only [hall, if_pos hlen, Bool.false_eq_true, if_false]
    by_cases hcond : (QEncode name offset).2 + 1 + addr.length ≤ 74
    · rw [if_pos hcond]
      simp [hcond]
    · rw [if_neg hcond]
      simp [hcond]


theorem C6_address_name_encoding_witness :
    ((strB "John Doe" ≠ [] ∧ ∀ c ∈ strB "John Doe", 32 ≤ c ∧ c ≤ 126 ∧ c ≠ 34 ∧ c ≠ 92) ∧
      (Address.encode ⟨strB "John Doe", strB "jd@example.com"⟩ 6).1 =
        [34] ++ strB "John Doe" ++ [34] ++ [32] ++ [60] ++ strB "jd@example.com" ++ [62]) ∧
    ((∃ c ∈ [206, 148], 128 ≤ c ∨ c < 32) ∧
      (Address.encode ⟨[206, 148], strB "jd@example.com"⟩ 6).1 =
        (QEncode [206, 148] 6).1 ++ [32] ++ [60] ++ strB "jd@example.com" ++ [62]) := by
  refine ⟨⟨⟨by decide, by decide⟩, ?_⟩, ⟨by decide, ?_⟩⟩
  · have h :=
      (C6_address_name_encoding (strB "John Doe") (strB "jd@example.com") 6).1
        (by decide) (by decide)
    rw [h]
    decide
  · have h :=
      (C6_address_name_encoding [206, 148] (strB "jd@example.com") 6).2
        (by decide)
    rw [h]
    decide

/-! ### Message data model (claims C3, C4, C7, C8, C9, C10)

Go strings and byte slices are byte lists; the `sync.RWMutex` and the parsed
`template.Template` values are not modelled (locking is irrelevant to the
sequential semantics, and a template slot instead carries the outcome of
executing it against the ambient `data` value, which is opaque to this
model).  The ambient collaborators of `Compose` — the process-wide default
sender, the `crypto/sha256` hash, the `htmlToText` conversion (built on Go's
`regexp` and `html` packages), the filesystem, and the clock's formatted
RFC 1123 timestamp — are passed as parameters. -/

/-- `CTE` (message.go lines 17-27). -/
inductive CTE where
  | AutoCTE
  | QuotedPrintable
  | Base64
deriving DecidableEq

/-- The outcome of executing a stored (already parsed) template against the
caller's data: the bytes left in the buffer plus the error, if any, that
`Execute` returned.  Since the `data` value is opaque to this model, a
template slot carries its render outcome directly. -/
structure TplRun where
  err : Option (List Nat)
  out : List Nat
deriving DecidableEq

/-- `Related` (message.go lines 709-714). -/
structure Related where
  id : List Nat
  ctype : List Nat
  fileName : List Nat
  data : List Nat
deriving DecidableEq

/-- `attachment` (message.go lines 734-739). -/
structure attachment where
  name : List Nat
  ctype : List Nat
  fileName : List Nat
  data : List Nat
deriving DecidableEq

/-- The zero `attachment` value (used as heap-lookup default). -/
def attachment.empty : attachment := ⟨[], [], [], []⟩

/-- `part` (message.go lines 697-706). -/
structure part where
  ctype : List Nat
  cte : CTE
  bytes : List Nat
  tplSrc : List Nat
  tpl : Option TplRun
  htmlTplSrc : List Nat
  htmlTpl : Option TplRun
  related : List Related
deriving DecidableEq

/-- The zero `part` value (used as lookup default). -/
def part.empty : part := ⟨[], CTE.AutoCTE, [], [], none, [], none, []⟩

/-- `Sender` (helpers file, lines 39-45). -/
structure Sender where
  host : List Nat
  port : Nat
  username : List Nat
  password : List Nat
  address : Option Address
deriving DecidableEq

/-- `Message` (message.go lines 35-49).  Go's `text`/`html` fields are
pointers into `parts`: they are modelled as indices (pointer identity is
index identity, which `NewMessage` preserves).  Go's `attachments` field is
a slice of pointers `[]*attachment`: it is modelled as a list of indices
into an attachment heap passed alongside the message, which makes the
pointer copying done by `NewMessage` (message.go line 678) observable.
`from` and `to` are reserved words in Lean, so those fields are called
`fromAddr` and `toList`. -/
structure Message where
  domain : List Nat
  subject : List Nat
  subjectTplSrc : List Nat
  subjectTpl : Option TplRun
  sender : Option Sender
  fromAddr : Option Address
  replyTo : Option Address
  toList : List Address
  cc : List Address
  bcc : List Address
  parts : List part
  text : Option Nat
  html : Option Nat
  attachments : List Nat
  errors : List (List Nat)
  prepared : Bool
deriving DecidableEq

/-- The filesystem collaborator: `ioutil.ReadFile` either returns the bytes
of a path or fails. -/
def FileSys := List Nat → Option (List Nat)

/-- `Message.From` (message.go lines 98-106): an invalid address argument is
silently replaced by nil. -/
def Message.From (m : Message) (addr : Option Address) : Message :=
  let addr2 := match addr with
    | some a => if SeemsValidAddr a.addr then some a else none
    | none => none
  { m with fromAddr := addr2 }

/-- `Message.ReplyTo` (message.go lines 155-163). -/
def Message.ReplyTo (m : Message) (addr : Option Address) : Message :=
  let addr2 := match addr with
    | some a => if SeemsValidAddr a.addr then some a else none
    | none => none
  { m with replyTo := addr2 }

/-- The list filtering shared by `To`, `Cc` and `Bcc` (message.go lines
110-151): nil and invalid addresses are silently dropped. -/
def filterValid (addr : List (Option Address)) : List Address :=
  addr.filterMap fun a? => match a? with
    | some a => if SeemsValidAddr a.addr then some a else none
    | none => none

/-- `Message.To` (message.go lines 110-121); replaces the previous list. -/
def Message.To (m : Message) (addr : List (Option Address)) : Message :=
  { m with toList := filterValid addr }

/-- `Message.Cc` (message.go lines 125-136). -/
def Message.Cc (m : Message) (addr : List (Option Address)) : Message :=
  { m with cc := filterValid addr }

/-- `Message.Bcc` (message.go lines 140-151). -/
def Message.Bcc (m : Message) (addr : List (Option Address)) : Message :=
  { m with bcc := filterValid addr }

/-- `Message.Subject` (message.go lines 70-75). -/
def Message.Subject (m : Message) (subject : List Nat) : Message :=
  { m with subject := subject }

/-- `Message.Domain` (message.go lines 55-60). -/
def Message.Domain (m : Message) (domain : List Nat) : Message :=
  { m with domain := domain }

/-- `Message.Text` (message.go lines 181-194): reuses the text slot in place
when it exists, otherwise appends a new part and records it as the text
part. -/
def Message.Text (m : Message) (text : List Nat) : Message :=
  let p : part := ⟨strB "text/plain; charset=utf-8", CTE.QuotedPrintable, text, [], none, [],
    none, []⟩
  match m.text with
  | some i => { m with parts := m.parts.set i p }
  | none => { m with parts := m.parts ++ [p], text := some m.parts.length }

/-- `Message.Html` (message.go lines 226-241). -/
def Message.Html (m : Message) (html : List Nat) (related : List Related) : Message :=
  let p : part := ⟨strB "text/html; charset=utf-8", CTE.QuotedPrintable, html, [], none, [],
    none, related⟩
  match m.html with
  | some i => { m with parts := m.parts.set i p, prepared := false }
  | none => { m with parts := m.parts ++ [p], html := some m.parts.length, prepared := false }

/-- `Message.AttachFile` (message.go lines 287-297): allocates a new
attachment cell referencing the file. -/
def Message.AttachFile (m : Message) (heap : List attachment) (name ctype file : List Nat) :
    Message × List attachment :=
  ({ m with attachments := m.attachments ++ [heap.length], prepared := false },
    heap ++ [⟨name, ctype, file, []⟩])

/-- `Message.AttachObject` (message.go lines 300-309). -/
def Message.AttachObject (m : Message) (heap : List attachment) (name ctype data : List Nat) :
    Message × List attachment :=
  ({ m with attachments := m.attachments ++ [heap.length] },
    heap ++ [⟨name, ctype, [], data⟩])

/-- The empty `Message` with `prepared := true`: `NewMessage(nil)`
(message.go line 622). -/
def emptyMessage : Message :=
  ⟨[], [], [], none, none, none, none, [], [], [], [], none, none, [], [], true⟩

/-- `NewMessage` (message.go lines 620-682).  Addresses and parts are
deep-copied (each part's bytes are copied and its templates re-parsed from
their stored sources, which render identically); the text/html pointer
identities become the same indices.  The `attachments` pointers are copied
as-is (message.go line 678: `m.attachments[i] = attData`), so clone and
original keep referencing the same attachment heap cells; the related values
are copied but their `data` slices are shared (never mutated in place). -/
def NewMessage : Option Message → Message
  | none => emptyMessage
  | some msg =>
    { domain := msg.domain
      subject := msg.subject
      subjectTplSrc := msg.subjectTplSrc
      subjectTpl := if msg.subjectTplSrc ≠ [] then msg.subjectTpl else none
      sender := msg.sender
      fromAddr := msg.fromAddr
      replyTo := msg.replyTo
      toList := msg.toList
      cc := msg.cc
      bcc := msg.bcc
      parts := msg.parts.map fun p =>
        { ctype := p.ctype
          cte := p.cte
          bytes := p.bytes
          tplSrc := p.tplSrc
          tpl := if p.tplSrc ≠ [] then p.tpl else none
          htmlTplSrc := p.htmlTplSrc
          htmlTpl := if p.htmlTplSrc ≠ [] then p.htmlTpl else none
          related := p.related }
      text := msg.text
      html := msg.html
      attachments := msg.attachments
      errors := []
      prepared := msg.prepared }

/-- Modelled from the spec: `filepath.Base`, the file name after the last
path separator (external Go standard library; only its use as a default
attachment name matters here). -/
def filepathBase (f : List Nat) : List Nat :=
  f.foldl (fun acc c => if c = 47 then [] else acc ++ [c]) []

/-- Modelled from the spec: `filepath.Ext`, the suffix starting at the last
dot (external Go standard library). -/
def filepathExt (f : List Nat) : List Nat :=
  f.foldl (fun acc c => if c = 46 then [46] else if acc ≠ [] then acc ++ [c] else acc) []

/-- Modelled from the spec: `mime.TypeByExtension`, the extension-to-MIME
table (external Go standard library); no claim depends on its values, so
unknown extensions map to the empty string as in Go. -/
def mimeTypeByExtension (_ : List Nat) : List Nat := []

/-- `Message.prepare` (message.go lines 311-345).  The related pass mirrors
the Go `for _, r := range p.related` loop: `r` is a copy of the list
element, so the bytes read for a related file are assigned to the copy and
discarded — only the error path is observable.  The attachment pass reads
through the shared heap cells and updates them in place. -/
def prepare (m : Message) (heap : List attachment) (fs : FileSys) (force : Bool) :
    Message × List attachment :=
  if m.prepared ∧ ¬force then (m, heap)
  else
    let relStep := fun (acc : List (List Nat) × Bool) (r : Related) =>
      if r.fileName ≠ [] ∧ (force ∨ r.data = []) then
        match fs r.fileName with
        | some _ => acc
        | none => (acc.1 ++ [strB "cannot read file: " ++ r.fileName], false)
      else acc
    let acc1 := m.parts.foldl (fun acc p => p.related.foldl relStep acc) ([], true)
    let attStep := fun (acc : List (List Nat) × Bool × List attachment) (idx : Nat) =>
      let a := acc.2.2.getD idx attachment.empty
      if a.fileName ≠ [] ∧ (force ∨ a.data = []) then
        match fs a.fileName with
        | some file =>
          (acc.1, acc.2.1, acc.2.2.set idx
            { a with
              data := file
              name := if a.name = [] then filepathBase a.fileName else a.name
              ctype := if a.ctype = [] then mimeTypeByExtension (filepathExt a.fileName)
                else a.ctype })
        | none => (acc.1 ++ [strB "cannot read file: " ++ a.fileName], false, acc.2.2)
      else acc
    let acc2 := m.attachments.foldl attStep (acc1.1, acc1.2, heap)
    ({ m with errors := m.errors ++ acc2.1, prepared := acc2.2.1 }, acc2.2.2)

/-- `Message.Prepare` (message.go lines 350-355). -/
def Message.Prepare (m : Message) (heap : List attachment) (fs : FileSys) :
    Message × List attachment :=
  prepare m heap fs false

/-- `Message.PrepareFresh` (message.go lines 359-364). -/
def Message.PrepareFresh (m : Message) (heap : List attachment) (fs : FileSys) :
    Message × List attachment :=
  prepare m heap fs true

/-- `Address.Domain` (address.go lines 62-69): the part after the last `@`,
or empty when there is none (the Go loop scans from the end). -/
def Address.Domain (a : Address) : List Nat :=
  if 64 ∈ a.addr then (a.addr.reverse.takeWhile fun c => c != 64).reverse else []

/-- The From-address resolution at the top of `Compose` and `FromAddr`
(message.go lines 376-383): explicit From, else the message's sender's
address, else the process-wide default sender's address. -/
def resolveFrom (ds : Option Sender) (m : Message) : Option Address :=
  match m.fromAddr with
  | some a => some a
  | none =>
    match m.sender.bind Sender.address with
    | some a => some a
    | none => ds.bind Sender.address

/-- `Message.FromAddr` (message.go lines 549-565). -/
def Message.FromAddrStr (ds : Option Sender) (m : Message) : List Nat :=
  match resolveFrom ds m with
  | some a => a.addr
  | none => []

/-- `Message.RecipientAddrs` (message.go lines 570-602): To (or the From
address when To is empty), then Cc, then Bcc, de-duplicated preserving
first-seen order. -/
def Message.RecipientAddrs (ds : Option Sender) (m : Message) : List (List Nat) :=
  let start := if m.toList = [] then [m.FromAddrStr ds] else []
  ((m.toList ++ m.cc ++ m.bcc).map Address.addr).foldl
    (fun acc a => if a ∈ acc then acc else acc ++ [a]) start

/-- Decimal digits of a number: `strconv.Itoa`. -/
def natStr (n : Nat) : List Nat := strB (Nat.repr n)

/-- CRLF. -/
def crlf : List Nat := [13, 10]

/-- One part's template rendering (message.go lines 396-413): the text
template takes precedence, then the html template; the executed bytes are
stored in `bytes`. -/
def renderPart (p : part) : part :=
  match p.tpl with
  | some r => { p with bytes := r.out }
  | none =>
    match p.htmlTpl with
    | some r => { p with bytes := r.out }
    | none => p

/-- The template-rendering phase of `Compose` (message.go lines 388-413):
the subject template and then each part's text or html template is executed;
a render error is recorded (tagged with the part index) but the buffer
contents are stored either way. -/
def renderTemplates (m : Message) : Message :=
  let m1 :=
    match m.subjectTpl with
    | some r =>
      { m with
        errors := m.errors ++ (match r.err with
          | some e => [strB "failed Execute on subject template: " ++ e]
          | none => [])
        subject := r.out }
    | none => m
  { m1 with
    parts := m1.parts.map renderPart
    errors := m1.errors ++ m1.parts.enum.flatMap fun pi =>
      match pi.2.tpl with
      | some r =>
        match r.err with
        | some e => [strB "failed Execute on part[" ++ natStr pi.1 ++ strB "] template: " ++ e]
        | none => []
      | none =>
        match pi.2.htmlTpl with
        | some r =>
          match r.err with
          | some e =>
            [strB "failed Execute on part[" ++ natStr pi.1 ++ strB "] html template: " ++ e]
          | none => []
        | none => [] }

/-- The boundary/Message-ID token (message.go lines 427-433): the base64
rendering of the hash of the timestamp concatenated with the resolved
subject, truncated to 43 characters (discarding the padding `=`).  `hash`
stands for the external `crypto/sha256` (whose output is 32 bytes, hence 44
base64 characters). -/
def tokenOf (hash : List Nat → List Nat) (ts subject : List Nat) : List Nat :=
  (Base64Encode (hash (ts ++ subject))).take 43

/-- The address-list formatter `listAddrs` inside `Compose` (message.go
lines 447-467): separator plus fold decision for each subsequent item. -/
def listAddrsLoop : List Address → Nat → List Nat
  | [], _ => []
  | item :: rest, offset =>
    let sep : List Nat × Nat :=
      if offset < 75 then (strB ", ", offset + 2)
      else if offset < 76 then ([44, 13, 10, 32], 1)
      else ([13, 10, 32, 44, 32], 3)
    let e := Address.encode item sep.2
    sep.1 ++ e.1 ++ listAddrsLoop rest e.2

/-- `listAddrs` entry point (first item has no separator). -/
def listAddrs (list : List Address) (offset : Nat) : List Nat :=
  match list with
  | [] => []
  | item :: rest =>
    let e := Address.encode item offset
    e.1 ++ listAddrsLoop rest e.2

/-- The header block of `Compose` (message.go lines 436-480), written in the
order of the `msg.Write` calls: Message-ID, Date, Subject, From, Reply-To
(only when set, non-empty and different from the From address), To
(defaulting to the From address), Cc (only when non-empty), MIME-Version.
Bcc is never written (message.go line 478). -/
def emitHeaders (ts uid domain : List Nat) (frm : Address) (m : Message) : List Nat :=
  strB "Message-ID: <" ++ uid ++ [64] ++ domain ++ strB ">\r\n" ++
  strB "Date: " ++ ts ++ crlf ++
  strB "Subject: " ++ QEncodeIfNeeded m.subject 9 ++ crlf ++
  strB "From: " ++ (Address.encode frm 6).1 ++ crlf ++
  (match m.replyTo with
    | some rt =>
      if rt.addr ≠ [] ∧ rt.addr ≠ frm.addr then
        strB "Reply-To: " ++ (Address.encode rt 10).1 ++ crlf
      else []
    | none => []) ++
  strB "To: " ++ listAddrs (if m.toList = [] then [frm] else m.toList) 4 ++ crlf ++
  (if m.cc ≠ [] then strB "Cc: " ++ listAddrs m.cc 4 ++ crlf else []) ++
  strB "MIME-Version: 1.0\r\n"

/-- One body part's emission inside the parts loop of `Compose` (message.go
lines 500-528): optional alternative boundary, optional related wrapper,
the part body in its transfer encoding (`AutoCTE` falls through to
quoted-printable), each related item base64-encoded, and the related close. -/
def partOut (uid : List Nat) (alt : Bool) (i : Nat) (p : part) : List Nat :=
  let pn := natStr i
  (if alt then crlf ++ strB "--=_a" ++ uid ++ crlf else []) ++
  (if p.related ≠ [] then
      strB "Content-Type: multipart/related;\r\n\tboundary==_r" ++ pn ++ uid ++
        strB "\r\n\r\n--=_r" ++ pn ++ uid ++ crlf
    else []) ++
  (match p.cte with
    | CTE.Base64 =>
      strB "Content-Type: " ++ p.ctype ++
        strB "\r\nContent-Transfer-Encoding: base64\r\n\r\n" ++ Base64Encode p.bytes ++ crlf
    | _ =>
      strB "Content-Type: " ++ p.ctype ++
        strB "\r\nContent-Transfer-Encoding: quoted-printable\r\n\r\n" ++
        QuotedPrintableEncode p.bytes ++ crlf) ++
  (p.related.flatMap fun r =>
    crlf ++ strB "--=_r" ++ pn ++ uid ++ crlf ++
    strB "Content-Type: " ++ r.ctype ++ strB "\r\nContent-Transfer-Encoding: base64\r\n\r\n" ++
    Base64Encode r.data ++ crlf) ++
  (if p.related ≠ [] then crlf ++ strB "--=_r" ++ pn ++ uid ++ strB "--\r\n" else [])

/-- One attachment's emission (message.go lines 533-539). -/
def attOut (uid : List Nat) (a : attachment) : List Nat :=
  crlf ++ strB "--=_m" ++ uid ++ crlf ++
  strB "Content-Type: " ++ a.ctype ++
  strB "\r\nContent-Disposition: attachment;\r\n\tfilename=" ++ a.name ++
  strB "\r\nContent-Transfer-Encoding: base64\r\n\r\n" ++
  Base64Encode a.data ++ crlf

/-- The synthesized plain-text alternative (message.go lines 493-499),
emitted when an html part exists but no text part; `h2t` stands for
`htmlToText` (src/helpers.go, built on Go's regexp and html packages). -/
def synthOut (h2t : List Nat → List Nat) (uid : List Nat) (alt : Bool) (m : Message) :
    List Nat :=
  if m.html.isSome ∧ m.text.isNone then
    (if alt then crlf ++ strB "--=_a" ++ uid ++ crlf else []) ++
    strB "Content-Type: text/plain; charset=utf-8\r\n" ++
    strB "Content-Transfer-Encoding: quoted-printable\r\n\r\n" ++
    QuotedPrintableEncode (h2t (match m.html with
      | some i => (m.parts.getD i part.empty).bytes
      | none => [])) ++ crlf
  else []

/-- The body block of `Compose` (message.go lines 482-543), in the order of
the `msg.Write` calls: multipart/mixed wrapper when attachments exist,
multipart/alternative header when alt, synthesized text part, each body
part, the alternative close, each attachment, and the mixed close. -/
def emitBody (h2t : List Nat → List Nat) (uid : List Nat) (m : Message)
    (heap : List attachment) : List Nat :=
  let alt : Bool := m.html.isSome || decide (m.parts.length > 1)
  (if m.attachments ≠ [] then
      strB "Content-Type: multipart/mixed;\r\n\tboundary==_m" ++ uid ++
        strB "\r\n\r\n--=_m" ++ uid ++ crlf
    else []) ++
  (if alt then
      strB "Content-Type: multipart/alternative;\r\n\tboundary==_a" ++ uid ++ crlf
    else []) ++
  synthOut h2t uid alt m ++
  (m.parts.enum.flatMap fun pi => partOut uid alt pi.1 pi.2) ++
  (if alt then crlf ++ strB "--=_a" ++ uid ++ strB "--\r\n" else []) ++
  (m.attachments.flatMap fun idx => attOut uid (heap.getD idx attachment.empty)) ++
  (if m.attachments ≠ [] then crlf ++ strB "--=_m" ++ uid ++ strB "--\r\n" else [])

/-- The render/no-parts-check/prepare pipeline of `Compose` (message.go
lines 388-417), which accumulates errors before the final gate. -/
def composePrep (fs : FileSys) (m : Message) (heap : List attachment) :
    Message × List attachment :=
  let m1 := renderTemplates m
  let m2 := if m1.parts = [] then
      { m1 with errors := m1.errors ++ [strB "message has no parts"] }
    else m1
  prepare m2 heap fs false

/-- `Message.Compose` (message.go lines 368-546).  The collaborators are
parameters: `ds` the process-wide default sender, `hash` the sha256 of
crypto/sha256, `h2t` the htmlToText conversion, `fs` the filesystem, and
`ts` the RFC 1123 UTC timestamp produced by the clock.  Template slots
already carry their render outcome for the ambient `data` (see `TplRun`).
Returns the composed bytes together with the updated message and attachment
heap. -/
def Compose (ds : Option Sender) (hash h2t : List Nat → List Nat) (fs : FileSys)
    (ts : List Nat) (m : Message) (heap : List attachment) :
    List Nat × Message × List attachment :=
  match resolveFrom ds m with
  | none => ([], { m with errors := m.errors ++ [strB "no From address"] }, heap)
  | some frm =>
    let mh := composePrep fs m heap
    if mh.1.errors ≠ [] then ([], mh.1, mh.2)
    else
      let domain := if mh.1.domain = [] then frm.Domain else mh.1.domain
      let uid := tokenOf hash ts mh.1.subject
      (emitHeaders ts uid domain frm mh.1 ++ emitBody h2t uid mh.1 mh.2, mh.1, mh.2)

/-- `renderTemplates` touches only `subject`, `parts` and `errors`. -/
@[simp]
theorem renderTemplates_replyTo (m : Message) : (renderTemplates m).replyTo = m.replyTo := by
  unfold renderTemplates
  cases m.subjectTpl <;> rfl

@[simp]
theorem renderTemplates_toList (m : Message) : (renderTemplates m).toList = m.toList := by
  unfold renderTemplates
  cases m.subjectTpl <;> rfl

@[simp]
theorem renderTemplates_cc (m : Message) : (renderTemplates m).cc = m.cc := by
  unfold renderTemplates
  cases m.subjectTpl <;> rfl

@[simp]
theorem renderTemplates_bcc (m : Message) : (renderTemplates m).bcc = m.bcc := by
  unfold renderTemplates
  cases m.subjectTpl <;> rfl

@[simp]
theorem renderTemplates_domain (m : Message) : (renderTemplates m).domain = m.domain := by
  unfold renderTemplates
  cases m.subjectTpl <;> rfl

@[simp]
theorem renderTemplates_html (m : Message) : (renderTemplates m).html = m.html := by
  unfold renderTemplates
  cases m.subjectTpl <;> rfl

@[simp]
theorem renderTemplates_text (m : Message) : (renderTemplates m).text = m.text := by
  unfold renderTemplates
  cases m.subjectTpl <;> rfl

@[simp]
theorem renderTemplates_attachments (m : Message) : (renderTemplates m).attachments = m.attachments := by
  unfold renderTemplates
  cases m.subjectTpl <;> rfl

@[simp]
theorem renderTemplates_fromAddr (m : Message) : (renderTemplates m).fromAddr = m.fromAddr := by
  unfold renderTemplates
  cases m.subjectTpl <;> rfl

@[simp]
theorem renderTemplates_sender (m : Message) : (renderTemplates m).sender = m.sender := by
  unfold renderTemplates
  cases m.subjectTpl <;> rfl

/-- `prepare` touches only `errors`, `prepared` and the heap. -/
@[simp]
theorem prepare_replyTo (m : Message) (heap : List attachment) (fs : FileSys) (force : Bool) :
    (prepare m heap fs force).1.replyTo = m.replyTo := by
  unfold prepare
  split <;> rfl

@[simp]
theorem prepare_toList (m : Message) (heap : List attachment) (fs : FileSys) (force : Bool) :
    (prepare m heap fs force).1.toList = m.toList := by
  unfold prepare
  split <;> rfl

@[simp]
theorem prepare_cc (m : Message) (heap : List attachment) (fs : FileSys) (force : Bool) :
    (prepare m heap fs force).1.cc = m.cc := by
  unfold prepare
  split <;> rfl

@[simp]
theorem prepare_bcc (m : Message) (heap : List attachment) (fs : FileSys) (force : Bool) :
    (prepare m heap fs force).1.bcc = m.bcc := by
  unfold prepare
  split <;> rfl

@[simp]
theorem prepare_domain (m : Message) (heap : List attachment) (fs : FileSys) (force : Bool) :
    (prepare m heap fs force).1.domain = m.domain := by
  unfold prepare
  split <;> rfl

@[simp]
theorem prepare_html (m : Message) (heap : List attachment) (fs : FileSys) (force : Bool) :
    (prepare m heap fs force).1.html = m.html := by
  unfold prepare
  split <;> rfl

@[simp]
theorem prepare_text (m : Message) (heap : List attachment) (fs : FileSys) (force : Bool) :
    (prepare m heap fs force).1.text = m.text := by
  unfold prepare
  split <;> rfl

@[simp]
theorem prepare_attachments (m : Message) (heap : List attachment) (fs : FileSys) (force : Bool) :
    (prepare m heap fs force).1.attachments = m.attachments := by
  unfold prepare
  split <;> rfl

@[simp]
theorem prepare_fromAddr (m : Message) (heap : List attachment) (fs : FileSys) (force : Bool) :
    (prepare m heap fs force).1.fromAddr = m.fromAddr := by
  unfold prepare
  split <;> rfl

@[simp]
theorem prepare_sender (m : Message) (heap : List attachment) (fs : FileSys) (force : Bool) :
    (prepare m heap fs force).1.sender = m.sender := by
  unfold prepare
  split <;> rfl

@[simp]
theorem prepare_subject (m : Message) (heap : List attachment) (fs : FileSys) (force : Bool) :
    (prepare m heap fs force).1.subject = m.subject := by
  unfold prepare
  split <;> rfl

@[simp]
theorem prepare_parts (m : Message) (heap : List attachment) (fs : FileSys) (force : Bool) :
    (prepare m heap fs force).1.parts = m.parts := by
  unfold prepare
  split <;> rfl

@[simp]
theorem prepare_subjectTpl (m : Message) (heap : List attachment) (fs : FileSys) (force : Bool) :
    (prepare m heap fs force).1.subjectTpl = m.subjectTpl := by
  unfold prepare
  split <;> rfl

/-- `composePrep` leaves the header-relevant fields unchanged. -/
@[simp]
theorem composePrep_replyTo (fs : FileSys) (m : Message) (heap : List attachment) :
    (composePrep fs m heap).1.replyTo = m.replyTo := by
  simp only [composePrep, prepare_replyTo]
  split <;> simp

@[simp]
theorem composePrep_toList (fs : FileSys) (m : Message) (heap : List attachment) :
    (composePrep fs m heap).1.toList = m.toList := by
  simp only [composePrep, prepare_toList]
  split <;> simp

@[simp]
theorem composePrep_cc (fs : FileSys) (m : Message) (heap : List attachment) :
    (composePrep fs m heap).1.cc = m.cc := by
  simp only [composePrep, prepare_cc]
  split <;> simp

@[simp]
theorem composePrep_bcc (fs : FileSys) (m : Message) (heap : List attachment) :
    (composePrep fs m heap).1.bcc = m.bcc := by
  simp only [composePrep, prepare_bcc]
  split <;> simp

@[simp]
theorem composePrep_domain (fs : FileSys) (m : Message) (heap : List attachment) :
    (composePrep fs m heap).1.domain = m.domain := by
  simp only [composePrep, prepare_domain]
  split <;> simp

@[simp]
theorem composePrep_html (fs : FileSys) (m : Message) (heap : List attachment) :
    (composePrep fs m heap).1.html = m.html := by
  simp only [composePrep, prepare_html]
  split <;> simp

@[simp]
theorem composePrep_text (fs : FileSys) (m : Message) (heap : List attachment) :
    (composePrep fs m heap).1.text = m.text := by
  simp only [composePrep, prepare_text]
  split <;> simp

@[simp]
theorem composePrep_attachments (fs : FileSys) (m : Message) (heap : List attachment) :
    (composePrep fs m heap).1.attachments = m.attachments := by
  simp only [composePrep, prepare_attachments]
  split <;> simp

@[simp]
theorem composePrep_fromAddr (fs : FileSys) (m : Message) (heap : List attachment) :
    (composePrep fs m heap).1.fromAddr = m.fromAddr := by
  simp only [composePrep, prepare_fromAddr]
  split <;> simp

@[simp]
theorem composePrep_sender (fs : FileSys) (m : Message) (heap : List attachment) :
    (composePrep fs m heap).1.sender = m.sender := by
  simp only [composePrep, prepare_sender]
  split <;> simp

theorem emitHeaders_ne_nil (ts uid domain : List Nat) (frm : Address) (m : Message) :
    emitHeaders ts uid domain frm m ≠ [] := by
  unfold emitHeaders
  rw [show strB "Message-ID: <" = 77 :: strB "essage-ID: <" from by decide]
  simp

/-- Claim C3: for every `Message` and every data value (every assignment of
render outcomes), `Compose` either returns a non-empty message with the
accumulated error list empty, or a zero-length result with a non-empty error
list; there is no partial output.  The result is empty exactly when the
error list is non-empty at return. -/
theorem C3_compose_all_or_nothing (ds : Option Sender) (hash h2t : List Nat → List Nat)
    (fs : FileSys) (ts : List Nat) (m : Message) (heap : List attachment) :
    (Compose ds hash h2t fs ts m heap).1 = [] ↔
      (Compose ds hash h2t fs ts m heap).2.1.errors ≠ [] := by
  unfold Compose
  split
  · simp
  · dsimp only
    split
    · rename_i herr
      simpa using herr
    · rename_i herr
      rw [not_not] at herr
      simp [herr, List.append_eq_nil, emitHeaders_ne_nil]

/-- On the success path `Compose` returns the emitted headers and body for
the prepared message. -/
theorem Compose_success_shape (ds : Option Sender) (hash h2t : List Nat → List Nat)
    (fs : FileSys) (ts : List Nat) (m : Message) (heap : List attachment) (frm : Address)
    (hfrom : resolveFrom ds m = some frm)
    (hok : (composePrep fs m heap).1.errors = []) :
    Compose ds hash h2t fs ts m heap =
      (emitHeaders ts (tokenOf hash ts (composePrep fs m heap).1.subject)
          (if (composePrep fs m heap).1.domain = [] then frm.Domain
            else (composePrep fs m heap).1.domain) frm (composePrep fs m heap).1 ++
        emitBody h2t (tokenOf hash ts (composePrep fs m heap).1.subject)
          (composePrep fs m heap).1 (composePrep fs m heap).2,
        (composePrep fs m heap).1, (composePrep fs m heap).2) := by
  unfold Compose
  rw [hfrom]
  simp [hok]

/-- A successful `Compose` implies a resolvable From address and an
error-free pipeline. -/
theorem compose_errors_success (ds : Option Sender) (hash h2t : List Nat → List Nat)
    (fs : FileSys) (ts : List Nat) (m : Message) (heap : List attachment)
    (hok : (Compose ds hash h2t fs ts m heap).2.1.errors = []) :
    (∃ frm, resolveFrom ds m = some frm) ∧ (composePrep fs m heap).1.errors = [] := by
  unfold Compose at hok
  split at hok
  · simp at hok
  · rename_i frm hfrom
    dsimp only at hok
    split at hok
    · rename_i hne
      exact absurd hok hne
    · exact ⟨⟨frm, hfrom⟩, hok⟩

theorem foldl_dedup_mem (l : List (List Nat)) :
    ∀ (init : List (List Nat)) (x : List Nat), x ∈ init ∨ x ∈ l →
      x ∈ l.foldl (fun acc a => if a ∈ acc then acc else acc ++ [a]) init := by
  induction l with
  | nil => simp
  | cons b l ih =>
    intro init x hx
    simp only [List.foldl_cons]
    apply ih
    rcases hx with hx | hx
    · left
      split
      · exact hx
      · exact List.mem_append_left _ hx
    · rcases List.mem_cons.mp hx with rfl | hx
      · left
        split
        · assumption
        · exact List.mem_append_right _ (List.mem_singleton.mpr rfl)
      · right
        exact hx

/-- Every Bcc address is part of the transport-level recipient list. -/
theorem bcc_mem_recipients (ds : Option Sender) (m : Message) :
    ∀ a ∈ m.bcc, a.addr ∈ Message.RecipientAddrs ds m := by
  intro a ha
  unfold Message.RecipientAddrs
  apply foldl_dedup_mem
  right
  exact List.mem_map_of_mem Address.addr (by simp [ha])

theorem From_fromAddr (m : Message) (a : Option Address) :
    (m.From a).fromAddr = a.bind fun x => if SeemsValidAddr x.addr then some x else none := by
  unfold Message.From
  cases a <;> rfl

theorem ReplyTo_replyTo (m : Message) (a : Option Address) :
    (m.ReplyTo a).replyTo = a.bind fun x => if SeemsValidAddr x.addr then some x else none := by
  unfold Message.ReplyTo
  cases a <;> rfl

theorem bind_valid_some {a : Option Address} {x : Address}
    (h : (a.bind fun y => if SeemsValidAddr y.addr then some y else none) = some x) :
    SeemsValidAddr x.addr = true := by
  cases a with
  | none => simp at h
  | some y =>
    have h2 : (if SeemsValidAddr y.addr then some y else none) = some x := h
    split at h2
    · injection h2 with hh
      subst hh
      assumption
    · cases h2

theorem mem_filterValid_valid (l : List (Option Address)) :
    ∀ x ∈ filterValid l, SeemsValidAddr x.addr = true := by
  intro x hx
  unfold filterValid at hx
  obtain ⟨a0, ha0, hfa⟩ := List.mem_filterMap.mp hx
  match a0 with
  | some y =>
    have h2 : (if SeemsValidAddr y.addr then some y else none) = some x := hfa
    split at h2
    · injection h2 with hh
      subst hh
      assumption
    · cases h2
  | none => cases hfa

/-- Claim C10: every mutating address setter stores only addresses passing
`SeemsValidAddr`: `From` and `ReplyTo` silently replace an invalid argument
with nil, `To`, `Cc` and `Bcc` silently filter out nil and invalid
addresses, and none of them records an error on the message. -/
theorem C10_setters_validate (m : Message) (a : Option Address) (l : List (Option Address)) :
    ((m.From a).fromAddr =
        (a.bind fun x => if SeemsValidAddr x.addr then some x else none) ∧
      (∀ x, (m.From a).fromAddr = some x → SeemsValidAddr x.addr = true) ∧
      (m.From a).errors = m.errors) ∧
    ((m.ReplyTo a).replyTo =
        (a.bind fun x => if SeemsValidAddr x.addr then some x else none) ∧
      (∀ x, (m.ReplyTo a).replyTo = some x → SeemsValidAddr x.addr = true) ∧
      (m.ReplyTo a).errors = m.errors) ∧
    ((m.To l).toList = filterValid l ∧ (∀ x ∈ (m.To l).toList, SeemsValidAddr x.addr = true) ∧
      (m.To l).errors = m.errors) ∧
    ((m.Cc l).cc = filterValid l ∧ (∀ x ∈ (m.Cc l).cc, SeemsValidAddr x.addr = true) ∧
      (m.Cc l).errors = m.errors) ∧
    ((m.Bcc l).bcc = filterValid l ∧ (∀ x ∈ (m.Bcc l).bcc, SeemsValidAddr x.addr = true) ∧
      (m.Bcc l).errors = m.errors) := by
  refine ⟨⟨From_fromAddr m a, ?_, rfl⟩, ⟨ReplyTo_replyTo m a, ?_, rfl⟩,
    ⟨rfl, mem_filterValid_valid l, rfl⟩, ⟨rfl, mem_filterValid_valid l, rfl⟩,
    ⟨rfl, mem_filterValid_valid l, rfl⟩⟩
  · intro x hx
    rw [From_fromAddr m a] at hx
    exact bind_valid_some hx
  · intro x hx
    rw [ReplyTo_replyTo m a] at hx
    exact bind_valid_some hx

/-- Claim C7: on every successful `Compose`, the headers appear in exactly
this order: Message-ID, Date, Subject (Q-encoded only if needed — see
`QEncodeIfNeeded`), From, Reply-To (present only when a reply-to address is
set, non-empty and different from the resolved From address), To (equal to
the From address when no explicit To recipients are set), Cc (present only
when the Cc list is non-empty), then MIME-Version: 1.0; no Bcc header is
ever emitted, while the Bcc addresses are included in the transport-level
recipient list `RecipientAddrs`. -/
theorem C7_header_order (ds : Option Sender) (hash h2t : List Nat → List Nat) (fs : FileSys)
    (ts : List Nat) (m : Message) (heap : List attachment) (frm : Address)
    (hfrom : resolveFrom ds m = some frm)
    (hok : (Compose ds hash h2t fs ts m heap).2.1.errors = []) :
    (∃ body,
      (Compose ds hash h2t fs ts m heap).1 =
        strB "Message-ID: <" ++
          tokenOf hash ts (Compose ds hash h2t fs ts m heap).2.1.subject ++ [64] ++
          (if m.domain = [] then frm.Domain else m.domain) ++ strB ">\r\n" ++
        (strB "Date: " ++ ts ++ crlf) ++
        (strB "Subject: " ++
          QEncodeIfNeeded (Compose ds hash h2t fs ts m heap).2.1.subject 9 ++ crlf) ++
        (strB "From: " ++ (Address.encode frm 6).1 ++ crlf) ++
        (match m.replyTo with
          | some rt =>
            if rt.addr ≠ [] ∧ rt.addr ≠ frm.addr then
              strB "Reply-To: " ++ (Address.encode rt 10).1 ++ crlf
            else []
          | none => []) ++
        (strB "To: " ++ listAddrs (if m.toList = [] then [frm] else m.toList) 4 ++ crlf) ++
        (if m.cc ≠ [] then strB "Cc: " ++ listAddrs m.cc 4 ++ crlf else []) ++
        strB "MIME-Version: 1.0\r\n" ++ body) ∧
    ∀ a ∈ m.bcc, a.addr ∈ Message.RecipientAddrs ds m := by
  have hcp := (compose_errors_success ds hash h2t fs ts m heap hok).2
  have hshape := Compose_success_shape ds hash h2t fs ts m heap frm hfrom hcp
  refine ⟨⟨emitBody h2t (tokenOf hash ts (composePrep fs m heap).1.subject)
    (composePrep fs m heap).1 (composePrep fs m heap).2, ?_⟩, bcc_mem_recipients ds m⟩
  rw [hshape]
  unfold emitHeaders
  simp [List.append_assoc]

/-- The concrete message used by the C7 witness (subject "Test #1",
From `"test name" <test@example.com>`, no explicit To, plain-text body). -/
def c7msg : Message :=
  ((emptyMessage.Subject (strB "Test #1")).From
    (some ⟨strB "test name", strB "test@example.com"⟩)).Text (strB "Short test message")

/-- A stand-in for the external sha256: 32 arbitrary bytes. -/
def demoHash : List Nat → List Nat := fun _ => List.range 32

/-- A fixed formatted timestamp. -/
def demoTs : List Nat := strB "Mon, 02 Jan 2006 15:04:05 +0000"

/-- A filesystem with no readable files. -/
def noFs : FileSys := fun _ => none

/-- The From address of `c7msg`. -/
def c7from : Address := ⟨strB "test name", strB "test@example.com"⟩

theorem C7_header_order_witness :
    (resolveFrom none c7msg = some c7from ∧
      (Compose none demoHash id noFs demoTs c7msg []).2.1.errors = []) ∧
    (∃ body,
      (Compose none demoHash id noFs demoTs c7msg []).1 =
        strB "Message-ID: <" ++
          tokenOf demoHash demoTs (Compose none demoHash id noFs demoTs c7msg []).2.1.subject ++
          [64] ++ (if c7msg.domain = [] then c7from.Domain else c7msg.domain) ++
          strB ">\r\n" ++
        (strB "Date: " ++ demoTs ++ crlf) ++
        (strB "Subject: " ++
          QEncodeIfNeeded (Compose none demoHash id noFs demoTs c7msg []).2.1.subject 9 ++
          crlf) ++
        (strB "From: " ++ (Address.encode c7from 6).1 ++ crlf) ++
        (match c7msg.replyTo with
          | some rt =>
            if rt.addr ≠ [] ∧ rt.addr ≠ c7from.addr then
              strB "Reply-To: " ++ (Address.encode rt 10).1 ++ crlf
            else []
          | none => []) ++
        (strB "To: " ++
          listAddrs (if c7msg.toList = [] then [c7from] else c7msg.toList) 4 ++ crlf) ++
        (if c7msg.cc ≠ [] then strB "Cc: " ++ listAddrs c7msg.cc 4 ++ crlf else []) ++
        strB "MIME-Version: 1.0\r\n" ++ body) ∧
    ∀ a ∈ c7msg.bcc, a.addr ∈ Message.RecipientAddrs none c7msg :=
  ⟨⟨by decide, by decide⟩,
    C7_header_order none demoHash id noFs demoTs c7msg [] c7from (by decide) (by decide)⟩

/-- `renderPart` never touches the related list. -/
theorem renderPart_related (p : part) : (renderPart p).related = p.related := by
  unfold renderPart
  cases p.tpl
  · cases p.htmlTpl <;> rfl
  · rfl

/-- The rendering phase maps `renderPart` over the parts. -/
theorem renderTemplates_parts (m : Message) :
    (renderTemplates m).parts = m.parts.map renderPart := by
  unfold renderTemplates
  cases m.subjectTpl <;> rfl

/-- The prepared message's parts are the rendered original parts. -/
theorem composePrep_parts (fs : FileSys) (m : Message) (heap : List attachment) :
    (composePrep fs m heap).1.parts = m.parts.map renderPart := by
  unfold composePrep
  dsimp only
  rw [prepare_parts]
  split <;> simp [renderTemplates_parts]

/-- The pipeline preserves the number of parts. -/
theorem composePrep_parts_length (fs : FileSys) (m : Message) (heap : List attachment) :
    (composePrep fs m heap).1.parts.length = m.parts.length := by
  simp [composePrep_parts]

theorem flatMap_split {α : Type} (f : α → List Nat) (l : List α) (i : Nat) (h : i < l.length) :
    ∃ A B, l.flatMap f = A ++ (f l[i] ++ B) := by
  induction l generalizing i with
  | nil => simp at h
  | cons a rest ih =>
    cases i with
    | zero => exact ⟨[], rest.flatMap f, by simp⟩
    | succ j =>
      obtain ⟨A, B, hAB⟩ := ih j (by simpa using h)
      exact ⟨f a ++ A, B, by simp [hAB, List.append_assoc]⟩

theorem app_left (A : List Nat) {w B : List Nat} (h : ∃ s t, B = s ++ (w ++ t)) :
    ∃ s t, A ++ B = s ++ (w ++ t) := by
  obtain ⟨s, t, hst⟩ := h
  exact ⟨A ++ s, t, by rw [hst, List.append_assoc]⟩

theorem app_right (D : List Nat) {w C : List Nat} (h : ∃ s t, C = s ++ (w ++ t)) :
    ∃ s t, C ++ D = s ++ (w ++ t) := by
  obtain ⟨s, t, hst⟩ := h
  exact ⟨s, t ++ D, by rw [hst]; simp [List.append_assoc]⟩

theorem app_chunk2R (P a b R : List Nat) : ∃ s t, P ++ (a ++ (b ++ R)) = s ++ (a ++ (b ++ t)) :=
  ⟨P, R, rfl⟩

theorem app_chunk3R (P a b c R : List Nat) :
    ∃ s t, P ++ (a ++ (b ++ (c ++ R))) = s ++ (a ++ (b ++ (c ++ t))) :=
  ⟨P, R, rfl⟩

theorem sfx_head (A w : List Nat) : ∃ t, A ++ w = t ++ w :=
  ⟨A, rfl⟩

theorem sfx_left (A : List Nat) {w B : List Nat} (h : ∃ t, B = t ++ w) :
    ∃ t, A ++ B = t ++ w := by
  obtain ⟨t, ht⟩ := h
  exact ⟨A ++ t, by rw [ht, List.append_assoc]⟩

theorem app_flatMap {α : Type} {w : List Nat} (f : α → List Nat) (l : List α) (i : Nat)
    (hi : i < l.length) (h : ∃ s t, f l[i] = s ++ (w ++ t)) :
    ∃ s t, l.flatMap f = s ++ (w ++ t) := by
  obtain ⟨A, B, hAB⟩ := flatMap_split f l i hi
  obtain ⟨s, t, hst⟩ := h
  exact ⟨A ++ s, t ++ B, by rw [hAB, hst]; simp [List.append_assoc]⟩

theorem ex_rest5 (a b c d e R : List Nat) :
    ∃ rest, a ++ (b ++ (c ++ (d ++ (e ++ R)))) = a ++ (b ++ (c ++ (d ++ (e ++ rest)))) :=
  ⟨R, rfl⟩

/-- The mixed Content-Type line splits before its boundary attribute. -/
theorem mixed_open_split :
    strB "Content-Type: multipart/mixed;\r\n\tboundary==_m" =
      strB "Content-Type: multipart/mixed;\r\n\t" ++ strB "boundary==_m" := by decide

/-- The alternative Content-Type line splits before its boundary attribute. -/
theorem alt_open_split :
    strB "Content-Type: multipart/alternative;\r\n\tboundary==_a" =
      strB "Content-Type: multipart/alternative;\r\n\t" ++ strB "boundary==_a" := by decide

/-- The related Content-Type line splits before its boundary attribute. -/
theorem rel_open_split :
    strB "Content-Type: multipart/related;\r\n\tboundary==_r" =
      strB "Content-Type: multipart/related;\r\n\t" ++ strB "boundary==_r" := by decide

/-- Claim C8: on every successful `Compose`, the boundary/Message-ID token
is the base64 rendering of the hash (sha256) of the timestamp concatenated
with the resolved subject, truncated to exactly 43 characters (discarding
the padding); for a fixed clock it is a function of (timestamp, subject)
alone.  The same token is reused with fixed prefixes as the Message-ID
local part `<token@domain>`, as the mixed boundary `=_m token` (declared in
a boundary attribute and closed by the final `--=_m token--` delimiter), as
the alternative boundary `=_a token`, and as the related boundary
`=_r partIndex token` of every part with related items. -/
theorem C8_token_reuse (ds : Option Sender) (hash h2t : List Nat → List Nat) (fs : FileSys)
    (ts : List Nat) (m : Message) (heap : List attachment) (frm : Address)
    (hfrom : resolveFrom ds m = some frm)
    (hok : (Compose ds hash h2t fs ts m heap).2.1.errors = []) :
    tokenOf hash ts (Compose ds hash h2t fs ts m heap).2.1.subject =
      (Base64Encode (hash (ts ++ (Compose ds hash h2t fs ts m heap).2.1.subject))).take 43 ∧
    (∃ rest, (Compose ds hash h2t fs ts m heap).1 =
      strB "Message-ID: <" ++
        (tokenOf hash ts (Compose ds hash h2t fs ts m heap).2.1.subject ++
          ([64] ++ ((if m.domain = [] then frm.Domain else m.domain) ++
            (strB ">\r\n" ++ rest))))) ∧
    (m.attachments ≠ [] →
      (∃ s t, (Compose ds hash h2t fs ts m heap).1 =
        s ++ ((strB "boundary==_m" ++
          tokenOf hash ts (Compose ds hash h2t fs ts m heap).2.1.subject) ++ t)) ∧
      (∃ t, (Compose ds hash h2t fs ts m heap).1 =
        t ++ (crlf ++ strB "--=_m" ++
          tokenOf hash ts (Compose ds hash h2t fs ts m heap).2.1.subject ++
          strB "--\r\n"))) ∧
    ((m.html.isSome ∨ 1 < m.parts.length) →
      ∃ s t, (Compose ds hash h2t fs ts m heap).1 =
        s ++ ((strB "boundary==_a" ++
          tokenOf hash ts (Compose ds hash h2t fs ts m heap).2.1.subject) ++ t)) ∧
    ∀ i, ∀ h : i < m.parts.length, (m.parts[i]).related ≠ [] →
      ∃ s t, (Compose ds hash h2t fs ts m heap).1 =
        s ++ ((strB "boundary==_r" ++
          (natStr i ++ tokenOf hash ts (Compose ds hash h2t fs ts m heap).2.1.subject)) ++ t) := by
  have hcp := (compose_errors_success ds hash h2t fs ts m heap hok).2
  have hshape := Compose_success_shape ds hash h2t fs ts m heap frm hfrom hcp
  have h1 := congrArg Prod.fst hshape
  have h2 := congrArg (fun p => p.2.1) hshape
  dsimp only at h1 h2
  have hdom : (if (composePrep fs m heap).1.domain = [] then frm.Domain
      else (composePrep fs m heap).1.domain) =
      (if m.domain = [] then frm.Domain else m.domain) := by
    rw [composePrep_domain]
  refine ⟨rfl, ?_, ?_, ?_, ?_⟩
  · rw [h1, h2, hdom]
    unfold emitHeaders
    simp only [List.append_assoc]
    exact ex_rest5 _ _ _ _ _ _
  · intro hatt
    have hattM : (composePrep fs m heap).1.attachments ≠ [] := by
      rw [composePrep_attachments]
      exact hatt
    constructor
    · rw [h1, h2]
      apply app_left
      simp only [emitBody]
      apply app_right
      apply app_right
      apply app_right
      apply app_right
      apply app_right
      apply app_right
      rw [if_pos hattM, mixed_open_split]
      simp only [List.append_assoc]
      exact app_chunk2R _ _ _ _
    · rw [h1, h2]
      apply sfx_left
      simp only [emitBody]
      rw [if_pos hattM, if_pos hattM]
      exact sfx_head _ _
  · intro halt
    have haltM : ((composePrep fs m heap).1.html.isSome ||
        decide ((composePrep fs m heap).1.parts.length > 1)) = true := by
      rcases halt with hh | hp
      · simp [composePrep_html, hh]
      · simp [composePrep_parts_length, hp]
    rw [h1, h2]
    apply app_left
    simp only [emitBody]
    apply app_right
    apply app_right
    apply app_right
    apply app_right
    apply app_right
    apply app_left
    rw [if_pos haltM, alt_open_split]
    simp only [List.append_assoc]
    exact app_chunk2R _ _ _ _
  · intro i h hrel
    have hrel2 : (renderPart m.parts[i]).related ≠ [] := by
      rw [renderPart_related]
      exact hrel
    have hiM : i < ((composePrep fs m heap).1.parts).length := by
      rw [composePrep_parts_length]
      exact h
    have hiE : i < ((composePrep fs m heap).1.parts.enum).length := by simpa using hiM
    have hval : ((composePrep fs m heap).1.parts.enum)[i] = (i, renderPart m.parts[i]) := by
      simp [composePrep_parts]
    rw [h1, h2]
    apply app_left
    simp only [emitBody]
    apply app_right
    apply app_right
    apply app_right
    apply app_left
    refine app_flatMap _ _ i hiE ?_
    simp only [hval]
    simp only [partOut]
    apply app_right
    apply app_right
    apply app_right
    apply app_left
    rw [if_pos hrel2, rel_open_split]
    simp only [List.append_assoc]
    exact app_chunk3R _ _ _ _ _

/-- A related item with preset data (no file read needed). -/
def c8rel : Related := ⟨strB "img1", strB "image/png", [], strB "IMGDATA"⟩

/-- The C8/C9 witness message: subject, valid From, an html part carrying
one related item, and one data attachment. -/
def c8base : Message × List attachment :=
  (((emptyMessage.Subject (strB "Hello")).From
      (some ⟨strB "Jo", strB "jo@example.com"⟩)).Html (strB "<b>Hi</b>") [c8rel]).AttachObject
    [] (strB "a.txt") (strB "text/plain") (strB "FILE")

def c8msg : Message := c8base.1

def c8heap : List attachment := c8base.2

/-- The From address of `c8msg`. -/
def c8from : Address := ⟨strB "Jo", strB "jo@example.com"⟩

theorem C8_token_reuse_witness :
    (resolveFrom none c8msg = some c8from ∧
      (Compose none demoHash id noFs demoTs c8msg c8heap).2.1.errors = []) ∧
    (tokenOf demoHash demoTs (Compose none demoHash id noFs demoTs c8msg c8heap).2.1.subject =
      (Base64Encode (demoHash (demoTs ++
        (Compose none demoHash id noFs demoTs c8msg c8heap).2.1.subject))).take 43 ∧
    (∃ rest, (Compose none demoHash id noFs demoTs c8msg c8heap).1 =
      strB "Message-ID: <" ++
        (tokenOf demoHash demoTs (Compose none demoHash id noFs demoTs c8msg c8heap).2.1.subject ++
          ([64] ++ ((if c8msg.domain = [] then c8from.Domain else c8msg.domain) ++
            (strB ">\r\n" ++ rest))))) ∧
    (c8msg.attachments ≠ [] →
      (∃ s t, (Compose none demoHash id noFs demoTs c8msg c8heap).1 =
        s ++ ((strB "boundary==_m" ++
          tokenOf demoHash demoTs
            (Compose none demoHash id noFs demoTs c8msg c8heap).2.1.subject) ++ t)) ∧
      (∃ t, (Compose none demoHash id noFs demoTs c8msg c8heap).1 =
        t ++ (crlf ++ strB "--=_m" ++
          tokenOf demoHash demoTs
            (Compose none demoHash id noFs demoTs c8msg c8heap).2.1.subject ++
          strB "--\r\n"))) ∧
    ((c8msg.html.isSome ∨ 1 < c8msg.parts.length) →
      ∃ s t, (Compose none demoHash id noFs demoTs c8msg c8heap).1 =
        s ++ ((strB "boundary==_a" ++
          tokenOf demoHash demoTs
            (Compose none demoHash id noFs demoTs c8msg c8heap).2.1.subject) ++ t)) ∧
    ∀ i, ∀ h : i < c8msg.parts.length, (c8msg.parts[i]).related ≠ [] →
      ∃ s t, (Compose none demoHash id noFs demoTs c8msg c8heap).1 =
        s ++ ((strB "boundary==_r" ++
          (natStr i ++ tokenOf demoHash demoTs
            (Compose none demoHash id noFs demoTs c8msg c8heap).2.1.subject)) ++ t)) :=
  ⟨⟨by decide, by decide⟩,
    C8_token_reuse none demoHash id noFs demoTs c8msg c8heap c8from (by decide) (by decide)⟩

/-- Claim C9: when a message with an html part and at least one attachment
composes successfully, the body is a multipart/mixed wrapping a
multipart/alternative block: after the headers come the mixed open (with
its first `--=_m token` delimiter), the alternative header, the inner
alternative content, then — exactly once each and in this order — the
alternative closing delimiter `--=_a token--`, every attachment part, and
the mixed closing delimiter `--=_m token--`. -/
theorem C9_mixed_alt_nesting (ds : Option Sender) (hash h2t : List Nat → List Nat)
    (fs : FileSys) (ts : List Nat) (m : Message) (heap : List attachment) (frm : Address)
    (hfrom : resolveFrom ds m = some frm)
    (hok : (Compose ds hash h2t fs ts m heap).2.1.errors = [])
    (hh : m.html.isSome) (hatt : m.attachments ≠ []) :
    ∃ hdrs inner,
      (Compose ds hash h2t fs ts m heap).1 =
        hdrs ++
        ((strB "Content-Type: multipart/mixed;\r\n\tboundary==_m" ++
            tokenOf hash ts (Compose ds hash h2t fs ts m heap).2.1.subject ++
            strB "\r\n\r\n--=_m" ++
            tokenOf hash ts (Compose ds hash h2t fs ts m heap).2.1.subject ++ crlf) ++
          ((strB "Content-Type: multipart/alternative;\r\n\tboundary==_a" ++
              tokenOf hash ts (Compose ds hash h2t fs ts m heap).2.1.subject ++ crlf) ++
            (inner ++
              ((crlf ++ strB "--=_a" ++
                  tokenOf hash ts (Compose ds hash h2t fs ts m heap).2.1.subject ++
                  strB "--\r\n") ++
                ((m.attachments.flatMap fun idx =>
                    attOut (tokenOf hash ts (Compose ds hash h2t fs ts m heap).2.1.subject)
                      ((Compose ds hash h2t fs ts m heap).2.2.getD idx attachment.empty)) ++
                  (crlf ++ strB "--=_m" ++
                    tokenOf hash ts (Compose ds hash h2t fs ts m heap).2.1.subject ++
                    strB "--\r\n")))))) := by
  have hcp := (compose_errors_success ds hash h2t fs ts m heap hok).2
  have hshape := Compose_success_shape ds hash h2t fs ts m heap frm hfrom hcp
  have h1 := congrArg Prod.fst hshape
  have h2 := congrArg (fun p => p.2.1) hshape
  have h3 := congrArg (fun p => p.2.2) hshape
  dsimp only at h1 h2 h3
  have hattM : (composePrep fs m heap).1.attachments ≠ [] := by
    rw [composePrep_attachments]
    exact hatt
  have haltM : ((composePrep fs m heap).1.html.isSome ||
      decide ((composePrep fs m heap).1.parts.length > 1)) = true := by
    simp [composePrep_html, hh]
  refine ⟨emitHeaders ts (tokenOf hash ts (composePrep fs m heap).1.subject)
      (if (composePrep fs m heap).1.domain = [] then frm.Domain
        else (composePrep fs m heap).1.domain) frm (composePrep fs m heap).1,
    synthOut h2t (tokenOf hash ts (composePrep fs m heap).1.subject)
        ((composePrep fs m heap).1.html.isSome ||
          decide ((composePrep fs m heap).1.parts.length > 1)) (composePrep fs m heap).1 ++
      (composePrep fs m heap).1.parts.enum.flatMap (fun pi =>
        partOut (tokenOf hash ts (composePrep fs m heap).1.subject)
          ((composePrep fs m heap).1.html.isSome ||
            decide ((composePrep fs m heap).1.parts.length > 1)) pi.1 pi.2), ?_⟩
  rw [h1, h2, h3]
  simp only [emitBody]
  simp only [if_pos hattM, if_pos haltM]
  simp only [composePrep_attachments]
  simp only [List.append_assoc]

theorem C9_mixed_alt_nesting_witness :
    (resolveFrom none c8msg = some c8from ∧
      (Compose none demoHash id noFs demoTs c8msg c8heap).2.1.errors = [] ∧
      c8msg.html.isSome ∧ c8msg.attachments ≠ []) ∧
    ∃ hdrs inner,
      (Compose none demoHash id noFs demoTs c8msg c8heap).1 =
        hdrs ++
        ((strB "Content-Type: multipart/mixed;\r\n\tboundary==_m" ++
            tokenOf demoHash demoTs
              (Compose none demoHash id noFs demoTs c8msg c8heap).2.1.subject ++
            strB "\r\n\r\n--=_m" ++
            tokenOf demoHash demoTs
              (Compose none demoHash id noFs demoTs c8msg c8heap).2.1.subject ++ crlf) ++
          ((strB "Content-Type: multipart/alternative;\r\n\tboundary==_a" ++
              tokenOf demoHash demoTs
                (Compose none demoHash id noFs demoTs c8msg c8heap).2.1.subject ++ crlf) ++
            (inner ++
              ((crlf ++ strB "--=_a" ++
                  tokenOf demoHash demoTs
                    (Compose none demoHash id noFs demoTs c8msg c8heap).2.1.subject ++
                  strB "--\r\n") ++
                ((c8msg.attachments.flatMap fun idx =>
                    attOut (tokenOf demoHash demoTs
                        (Compose none demoHash id noFs demoTs c8msg c8heap).2.1.subject)
                      ((Compose none demoHash id noFs demoTs c8msg c8heap).2.2.getD idx
                        attachment.empty)) ++
                  (crlf ++ strB "--=_m" ++
                    tokenOf demoHash demoTs
                      (Compose none demoHash id noFs demoTs c8msg c8heap).2.1.subject ++
                    strB "--\r\n")))))) :=
  ⟨⟨by decide, by decide, by decide, by decide⟩,
    C9_mixed_alt_nesting none demoHash id noFs demoTs c8msg c8heap c8from (by decide)
      (by decide) (by decide) (by decide)⟩

/-- A file-backed attachment whose bytes have not been read yet. -/
def c4att : attachment := ⟨strB "logo.png", strB "image/png", strB "logo-path", []⟩

/-- The C4 original message: one unread file-backed attachment. -/
def c4orig : Message := { emptyMessage with attachments := [0], prepared := false }

def c4heap : List attachment := [c4att]

/-- The clone produced by `NewMessage` from the original. -/
def c4clone : Message := NewMessage (some c4orig)

/-- A filesystem where the attachment's file exists. -/
def c4fs : FileSys := fun p => if p = strB "logo-path" then some (strB "LOGOBYTES") else none

/-- Claim C4 is refuted by the code: `NewMessage` copies the attachment
pointers (message.go line 678, modelled as heap indices), so clone and
original reference the same attachment cells.  Preparing the clone reads
the file and fills the shared cell — mutating the attachment the original
references, which was empty when the clone was made — and when the
original is prepared afterwards against a filesystem where the file no
longer exists, it reports no error and returns the bytes fetched by the
clone: unread file-backed attachment bytes are shared between clone and
original, not re-fetched independently as the claim states. -/
theorem C4_clone_shares_attachments :
    c4clone.attachments = c4orig.attachments ∧
    (c4heap.getD 0 attachment.empty).data = [] ∧
    ((Message.Prepare c4clone c4heap c4fs).2.getD 0 attachment.empty).data = strB "LOGOBYTES" ∧
    (prepare c4orig (Message.Prepare c4clone c4heap c4fs).2 noFs false).1.errors = [] ∧
    ((prepare c4orig (Message.Prepare c4clone c4heap c4fs).2 noFs false).2.getD 0
      attachment.empty).data = strB "LOGOBYTES" := by decide

end email
